import Mathlib

/-!
Verification of the kmbio structure builder and PDB serializer.

The development shallowly embeds `kmbio/PDB/core/structure_builder.py` and
`kmbio/PDB/io/savers.py`.  The entity classes (`Atom`, `Residue`, `Chain`,
`Model`, `Structure`, `DisorderedAtom`, `DisorderedResidue`) are not part of
the two source units; they are modelled from the specification's data-model
section (strict ownership tree, insertion-ordered children keyed by a stable
identifier, disordered wrappers that delegate to a currently selected child).
Real-valued quantities (coordinates, B-factor, occupancy) are modelled as
fixed-point integers scaled to the precision of their output columns
(milli-units for the 8.3f coordinate fields, centi-units for the 6.2f
occupancy and B-factor fields).
-/

namespace Kmbio

/-! ## Python string helpers used by the formatter -/

/-- Python `" " * n`. -/
def spaces (n : Nat) : String := String.mk (List.replicate n ' ')

/-- Python `s.rjust(n)` (pad on the left with spaces). -/
def rjust (s : String) (n : Nat) : String := spaces (n - s.length) ++ s

/-- Python `s.ljust(n)` / the `:{n}s` minimum-width format (pad on the right). -/
def ljust (s : String) (n : Nat) : String := s ++ spaces (n - s.length)

/-- Python `s.strip()` on the space-padded fields handled here. -/
def stripSpaces (s : String) : String :=
  String.mk (((s.data.dropWhile (· = ' ')).reverse.dropWhile (· = ' ')).reverse)

/-- Zero padding used to render the fractional digits of a fixed-point value. -/
def padZeros (s : String) (n : Nat) : String :=
  String.mk (List.replicate (n - s.length) '0') ++ s

/-- Rendering of a fixed-point decimal: `scaled` counts units of `10^-d`.
This models Python's `%.df` formatting on the decimal values the program
manipulates. -/
def fixedFmt (scaled : Int) (d : Nat) : String :=
  (if scaled < 0 then "-" else "")
    ++ toString (scaled.natAbs / 10 ^ d) ++ "."
    ++ padZeros (toString (scaled.natAbs % 10 ^ d)) d

/-- Python `s.upper()` (ASCII). -/
def upperStr (s : String) : String := String.mk (s.data.map Char.toUpper)

/-- Python `s.capitalize()` (first character upper, the rest lower). -/
def capitalizeStr (s : String) : String :=
  match s.data with
  | [] => ""
  | c :: cs => String.mk (c.toUpper :: cs.map Char.toLower)

/-! ## Data model (modelled from the spec) -/

/-- Occupancy as stored on an atom.  Besides a numeric value (centi-units of
the 6.2f column) the dynamic source language admits an absent (`None`)
occupancy and, in principle, a non-numeric one; both are needed to state the
error-handling behaviour of the formatter. -/
inductive Occupancy
  | val (centi : Int)
  | missing
  | invalid
deriving DecidableEq

/-- Modelled from the spec: leaf entity of the tree.  `name` is the stripped
key name, `fullname` the padded name; coordinates are milli-unit fixed-point,
`bfactor` centi-unit fixed-point. -/
structure Atom where
  name : String
  fullname : String
  x : Int
  y : Int
  z : Int
  bfactor : Int
  occupancy : Occupancy
  altloc : String
  serial_number : Int
  element : Option String
  disordered_flag : Bool
deriving DecidableEq

/-! ## The record formatter (`PDBIO._get_atom_line`) -/

/-- The element symbols recognised by the serializer: the keys of
`Bio.Data.IUPACData.atom_weights` (an external collaborator table). -/
def atom_weights : List String :=
  ["H", "D", "T", "He", "Li", "Be", "B", "C", "N", "O", "F", "Ne",
   "Na", "Mg", "Al", "Si", "P", "S", "Cl", "Ar", "K", "Ca", "Sc", "Ti",
   "V", "Cr", "Mn", "Fe", "Co", "Ni", "Cu", "Zn", "Ga", "Ge", "As", "Se",
   "Br", "Kr", "Rb", "Sr", "Y", "Zr", "Nb", "Mo", "Tc", "Ru", "Rh", "Pd",
   "Ag", "Cd", "In", "Sn", "Sb", "Te", "I", "Xe", "Cs", "Ba", "La", "Ce",
   "Pr", "Nd", "Pm", "Sm", "Eu", "Gd", "Tb", "Dy", "Ho", "Er", "Tm", "Yb",
   "Lu", "Hf", "Ta", "W", "Re", "Os", "Ir", "Pt", "Au", "Hg", "Tl", "Pb",
   "Bi", "Po", "At", "Rn", "Fr", "Ra", "Ac", "Th", "Pa", "U", "Np", "Pu",
   "Am", "Cm", "Bk", "Cf", "Es", "Fm", "Md", "No", "Lr", "Rf", "Db", "Sg",
   "Bh", "Hs", "Mt", "Ds", "Rg", "Cn", "Uut", "Fl", "Uup", "Lv", "Uus", "Uuo"]

/-- The fatal format violations of `_get_atom_line`: `ValueError` on an
unknown element, `TypeError` on a non-numeric non-absent occupancy, and the
failing width assertion. -/
inductive FmtError
  | unrecognisedElement (e : String)
  | invalidOccupancy
  | widthMismatch (n : Nat)
deriving DecidableEq

/-- A successfully formatted record, together with whether the
missing-occupancy warning was logged. -/
structure AtomLineResult where
  line : String
  occupancyWarning : Bool
deriving DecidableEq

/-- The element handling of `_get_atom_line` (savers.py lines 121-127):
a truthy element is stripped, upper-cased, validated against the
`atom_weights` table via `capitalize`, and right-justified to width two;
a falsy element becomes two blanks. -/
def format_element (e : Option String) : Except FmtError String :=
  match e with
  | some s =>
    if s ≠ "" then
      let el := upperStr (stripSpaces s)
      if capitalizeStr el ∈ atom_weights then .ok (rjust el 2)
      else .error (.unrecognisedElement s)
    else .ok "  "
  | none => .ok "  "

/-- The occupancy handling of `_get_atom_line` (savers.py lines 133-140):
a numeric occupancy is rendered `%6.2f`; an absent occupancy becomes six
blanks with a warning; any other non-numeric occupancy is a fatal
`TypeError`.  The boolean records the warning. -/
def format_occupancy (o : Occupancy) : Except FmtError (String × Bool) :=
  match o with
  | .val v => .ok (rjust (fixedFmt v 2) 6, false)
  | .missing => .ok (spaces 6, true)
  | .invalid => .error .invalidOccupancy

/-- The B-factor handling of `_get_atom_line` (savers.py lines 142-144):
`f"{bfactor:6.2f}"`, truncated to the part before the decimal point when the
rendering overflows six characters. -/
def format_bfactor (b : Int) : String :=
  let s := rjust (fixedFmt b 2) 6
  if s.length > 6 then String.mk (s.data.takeWhile (· ≠ '.')) else s

/-- Translation of `PDBIO._get_atom_line` (savers.py lines 113-166): fixed
80-column record assembly, ending with the `assert len(line) == 81` width
check. -/
def get_atom_line (a : Atom) (hetfield segid : String) (atom_number : Int)
    (resname : String) (resseq : Int) (icode chain_id : String)
    (charge : String := "  ") : Except FmtError AtomLineResult :=
  let record_type := if hetfield ≠ " " then "HETATM" else "ATOM  "
  match format_element a.element with
  | .error e => .error e
  | .ok element =>
    match format_occupancy a.occupancy with
    | .error e => .error e
    | .ok (occupancy_str, warn) =>
      let bfactor_str := format_bfactor a.bfactor
      let name_field := ljust (rjust (ljust (stripSpaces a.fullname) 3) 4) 4
      let line :=
        record_type ++ rjust (toString atom_number) 5 ++ " " ++ name_field
          ++ ljust a.altloc 1 ++ rjust resname 3 ++ rjust chain_id 2
          ++ rjust (toString resseq) 4 ++ ljust icode 1 ++ "   "
          ++ rjust (fixedFmt a.x 3) 8 ++ rjust (fixedFmt a.y 3) 8
          ++ rjust (fixedFmt a.z 3) 8
          ++ ljust occupancy_str 6 ++ ljust bfactor_str 6
          ++ rjust segid 7 ++ rjust element 5 ++ rjust charge 2 ++ "\n"
      if line.length = 81 then .ok ⟨line, warn⟩
      else .error (.widthMismatch line.length)

/-! ## Keyed, insertion-ordered children (modelled from the spec) -/

/-- Modelled from the spec: lookup in an insertion-ordered, keyed child list. -/
def lookupKey {κ α : Type} [DecidableEq κ] : List (κ × α) → κ → Option α
  | [], _ => none
  | (k, v) :: rest, key => if k = key then some v else lookupKey rest key

/-- Modelled from the spec: keyed insertion, silently overwriting an existing
entry in place and otherwise appending (dictionary assignment semantics). -/
def setKey {κ α : Type} [DecidableEq κ] : List (κ × α) → κ → α → List (κ × α)
  | [], key, v => [(key, v)]
  | (k, v') :: rest, key, v =>
    if k = key then (k, v) :: rest else (k, v') :: setKey rest key v

/-- Modelled from the spec: keyed deletion (`del parent[key]`). -/
def eraseKey {κ α : Type} [DecidableEq κ] : List (κ × α) → κ → List (κ × α)
  | [], _ => []
  | (k, v) :: rest, key => if k = key then rest else (k, v) :: eraseKey rest key

/-- Residue key: (hetero field, sequence number, insertion code). -/
abbrev ResId := String × Int × String

/-- Comparison used by `DisorderedAtom.disordered_add` to keep the
highest-occupancy variant selected; a non-numeric occupancy never wins. -/
def occGT (o : Occupancy) (best : Option Int) : Bool :=
  match o, best with
  | .val v, some b => decide (b < v)
  | .val _, none => true
  | _, _ => false

/-- Numeric value of an occupancy, if any. -/
def occValue (o : Occupancy) : Option Int :=
  match o with
  | .val v => some v
  | _ => none

/-- Modelled from the spec: variant-selector wrapper for an atom position;
holds a mapping altloc → Atom and a currently selected altloc (normally the
highest-occupancy variant, chosen as variants are added). -/
structure DisorderedAtom where
  id : String
  variants : List (String × Atom)
  selected : String
  last_occupancy : Option Int
deriving DecidableEq

/-- Modelled from the spec: adding a variant flags the atom as disordered,
stores it under its altloc, and selects it when its occupancy beats the best
seen so far (the first variant is always selected). -/
def DisorderedAtom.disordered_add (d : DisorderedAtom) (a : Atom) : DisorderedAtom :=
  let a' := { a with disordered_flag := true }
  let variants := setKey d.variants a'.altloc a'
  if d.variants.isEmpty || occGT a'.occupancy d.last_occupancy then
    { d with variants := variants, selected := a'.altloc,
             last_occupancy := occValue a'.occupancy }
  else { d with variants := variants }

/-- Modelled from the spec: the currently selected variant. -/
def DisorderedAtom.selectedAtom (d : DisorderedAtom) : Option Atom :=
  lookupKey d.variants d.selected

/-- A child slot of a residue: a plain Atom or a DisorderedAtom wrapper. -/
inductive AtomEntry
  | atomE (a : Atom)
  | disAtomE (d : DisorderedAtom)
deriving DecidableEq

/-- The key under which an atom child is stored (the atom name). -/
def AtomEntry.key : AtomEntry → String
  | .atomE a => a.name
  | .disAtomE d => d.id

/-- Attribute read `child.fullname`, delegated to the selected variant for a
DisorderedAtom (modelled from the spec's delegation rule). -/
def AtomEntry.fullname : AtomEntry → Option String
  | .atomE a => some a.fullname
  | .disAtomE d => d.selectedAtom.map Atom.fullname

/-- Modelled from the spec: a residue owns an insertion-ordered set of atom
children keyed by atom name; `disordered` is the 0/1/2 flag of the source. -/
structure Residue where
  id : ResId
  resname : String
  segid : String
  disordered : Nat
  atoms : List AtomEntry
deriving DecidableEq

/-- Child lookup by atom name (`name in residue` / `residue[name]`). -/
def Residue.getAtom (r : Residue) (name : String) : Option AtomEntry :=
  r.atoms.find? (fun e => e.key = name)

/-- Modelled from the spec: keyed child insertion for a residue, silently
overwriting an entry with the same key. -/
def Residue.addAtom (r : Residue) (e : AtomEntry) : Residue :=
  { r with atoms := go r.atoms }
where
  go : List AtomEntry → List AtomEntry
    | [] => [e]
    | x :: xs => if x.key = e.key then e :: xs else x :: go xs

/-- Modelled from the spec: `del residue[name]`. -/
def Residue.delAtom (r : Residue) (name : String) : Residue :=
  { r with atoms := go r.atoms }
where
  go : List AtomEntry → List AtomEntry
    | [] => []
    | x :: xs => if x.key = name then xs else x :: go xs

/-- Modelled from the spec: `get_unpacked_list` on a residue expands each
DisorderedAtom into its ordered variants. -/
def Residue.get_unpacked_list (r : Residue) : List Atom :=
  r.atoms.flatMap fun e =>
    match e with
    | .atomE a => [a]
    | .disAtomE d => d.variants.map Prod.snd

/-- Modelled from the spec: variant-selector wrapper for a residue position;
holds a mapping residue-name → Residue and a currently selected name. -/
structure DisorderedResidue where
  id : ResId
  variants : List (String × Residue)
  selected : String
deriving DecidableEq

/-- `disordered_has_id` of the source wrapper. -/
def DisorderedResidue.disordered_has_id (d : DisorderedResidue) (resname : String) : Bool :=
  (lookupKey d.variants resname).isSome

/-- `disordered_select` of the source wrapper. -/
def DisorderedResidue.disordered_select (d : DisorderedResidue) (resname : String) :
    DisorderedResidue :=
  { d with selected := resname }

/-- Modelled from the spec: add a residue variant keyed by its name; the
newly added variant becomes the selected one. -/
def DisorderedResidue.disordered_add (d : DisorderedResidue) (r : Residue) :
    DisorderedResidue :=
  { d with variants := setKey d.variants r.resname r, selected := r.resname }

/-- Modelled from the spec: the currently selected child residue. -/
def DisorderedResidue.selectedRes (d : DisorderedResidue) : Option Residue :=
  lookupKey d.variants d.selected

/-- A child slot of a chain: a plain Residue or a DisorderedResidue wrapper. -/
inductive ResidueEntry
  | resE (r : Residue)
  | disResE (d : DisorderedResidue)
deriving DecidableEq

/-- The key under which a residue child is stored. -/
def ResidueEntry.rid : ResidueEntry → ResId
  | .resE r => r.id
  | .disResE d => d.id

/-- Tree operations on a DisorderedResidue delegate to its selected child
(modelled from the spec); a plain entry is its own residue. -/
def ResidueEntry.residueFor : ResidueEntry → Option Residue
  | .resE r => some r
  | .disResE d => d.selectedRes

/-- Write an updated residue back into an entry: for a wrapper the selected
slot is replaced (the in-place mutation of the delegated child). -/
def ResidueEntry.withResidue : ResidueEntry → Residue → ResidueEntry
  | .resE _, r => .resE r
  | .disResE d, r => .disResE { d with variants := setKey d.variants d.selected r }

/-- Whether the entry is a plain residue (`isinstance(residue, Residue)`). -/
def ResidueEntry.isPlain : ResidueEntry → Bool
  | .resE _ => true
  | .disResE _ => false

/-- Modelled from the spec: a chain owns insertion-ordered residue children
under stable keys. -/
structure Chain where
  id : String
  residues : List (ResId × ResidueEntry)
deriving DecidableEq

/-- `res_id in chain` / `chain[res_id]`. -/
def Chain.lookupRes (ch : Chain) (rid : ResId) : Option ResidueEntry :=
  lookupKey ch.residues rid

/-- Modelled from the spec: `chain.add(entry)`, keyed by the entry's id. -/
def Chain.addRes (ch : Chain) (e : ResidueEntry) : Chain :=
  { ch with residues := setKey ch.residues e.rid e }

/-- Replace the entry stored at a key (in-place mutation of a child). -/
def Chain.setRes (ch : Chain) (rid : ResId) (e : ResidueEntry) : Chain :=
  { ch with residues := setKey ch.residues rid e }

/-- Modelled from the spec: `del chain[res_id]`. -/
def Chain.delRes (ch : Chain) (rid : ResId) : Chain :=
  { ch with residues := eraseKey ch.residues rid }

/-- Modelled from the spec: `get_unpacked_list` on a chain expands each
DisorderedResidue into its ordered variants. -/
def Chain.get_unpacked_list (ch : Chain) : List Residue :=
  ch.residues.flatMap fun p =>
    match p.2 with
    | .resE r => [r]
    | .disResE d => d.variants.map Prod.snd

/-- Modelled from the spec: a model owns chains keyed by chain id, plus an
optional serial number used by the MODEL record. -/
structure PModel where
  id : Int
  serial_num : Option Int
  chains : List (String × Chain)
deriving DecidableEq

/-- Modelled from the spec: the root entity. -/
structure Structure where
  id : String
  models : List PModel
deriving DecidableEq

/-! ## The structure builder (`structure_builder.py`) -/

/-- The distinct, catchable condition raised on a disorder-invariant
violation (`PDBConstructionException`). -/
structure PDBConstructionException where
  message : String
deriving DecidableEq

/-- Translation of `StructureBuilder._is_completely_disordered` (lines
28-35): every atom of the unpacked list has a non-blank altloc. -/
def is_completely_disordered (residue : Residue) : Bool :=
  residue.get_unpacked_list.all fun atom => atom.altloc ≠ " "

/-- Translation of `StructureBuilder.init_residue` (lines 93-170) as its
effect on the current chain and current-residue cursor.  Returns the updated
chain, the key of the new current residue (`none` when resolution failed)
and the raised exception, if any.  Note the source's control flow: the
branch that re-selects a DisorderedResidue variant already named `resname`
(lines 125-128) has no `return`, unlike every other branch, so after the
in-place `disordered_select` control falls through to the unconditional
residue creation of lines 169-170 (a fresh plain Residue added over the
occupied key). -/
def init_residue (chain : Chain) (segid resname field0 : String) (resseq : Int)
    (icode : String) : Chain × Option ResId × Option PDBConstructionException :=
  let field := if field0 ≠ " " then (if field0 = "H" then "H_" ++ resname else field0)
               else field0
  let res_id : ResId := (field, resseq, icode)
  if field = " " then
    match chain.lookupRes res_id with
    | some (.disResE duplicate_residue) =>
      if duplicate_residue.disordered_has_id resname then
        let chain1 := chain.setRes res_id
          (.disResE (duplicate_residue.disordered_select resname))
        (chain1.addRes (.resE ⟨res_id, resname, segid, 0, []⟩), some res_id, none)
      else
        let new_residue : Residue := ⟨res_id, resname, segid, 0, []⟩
        (chain.setRes res_id (.disResE (duplicate_residue.disordered_add new_residue)),
         some res_id, none)
    | some (.resE duplicate_residue) =>
      if resname = duplicate_residue.resname then
        (chain, some res_id, none)
      else if ¬ is_completely_disordered duplicate_residue then
        (chain, none,
         some ⟨"Blank altlocs in duplicate residue " ++ resname ++ " ('" ++ field
           ++ "', " ++ toString resseq ++ ", '" ++ icode ++ "')"⟩)
      else
        let new_residue : Residue := ⟨res_id, resname, segid, 0, []⟩
        let disordered_residue :=
          ((DisorderedResidue.mk res_id [] "").disordered_add
            duplicate_residue).disordered_add new_residue
        ((chain.delRes res_id).addRes (.disResE disordered_residue), some res_id, none)
    | none => (chain.addRes (.resE ⟨res_id, resname, segid, 0, []⟩), some res_id, none)
  else (chain.addRes (.resE ⟨res_id, resname, segid, 0, []⟩), some res_id, none)

/-- Translation of `StructureBuilder.init_atom` (lines 172-248) as its
effect on the current chain, given the current-residue cursor.  Returns the
updated chain and the constructed atom (`none` when the cursor is `none` and
the event is silently dropped). -/
def init_atom (chain : Chain) (cur : Option ResId) (name0 : String) (x y z : Int)
    (b_factor : Int) (occupancy : Occupancy) (altloc fullname : String)
    (serial_number : Int) (element : Option String) : Chain × Option Atom :=
  match cur with
  | none => (chain, none)
  | some rid =>
    match chain.lookupRes rid with
    | none => (chain, none)
    | some entry =>
      match entry.residueFor with
      | none => (chain, none)
      | some residue =>
        let name :=
          match residue.getAtom name0 with
          | some duplicate_atom =>
            if duplicate_atom.fullname ≠ some fullname then fullname else name0
          | none => name0
        let atom : Atom :=
          ⟨name, fullname, x, y, z, b_factor, occupancy, altloc, serial_number,
           element, false⟩
        if altloc ≠ " " then
          match residue.getAtom name with
          | some (.disAtomE duplicate_atom) =>
            let residue' := residue.addAtom (.disAtomE (duplicate_atom.disordered_add atom))
            (chain.setRes rid (entry.withResidue residue'), some atom)
          | some (.atomE duplicate_atom) =>
            let residue1 := residue.delAtom name
            let disordered_atom :=
              ((DisorderedAtom.mk name [] "" none).disordered_add atom).disordered_add
                duplicate_atom
            let residue2 := residue1.addAtom (.disAtomE disordered_atom)
            let residue3 := { residue2 with disordered := 1 }
            (chain.setRes rid (entry.withResidue residue3), some atom)
          | none =>
            let disordered_atom := (DisorderedAtom.mk name [] "" none).disordered_add atom
            let residue1 := residue.addAtom (.disAtomE disordered_atom)
            let residue2 := if entry.isPlain then { residue1 with disordered := 1 }
                            else residue1
            (chain.setRes rid (entry.withResidue residue2), some atom)
        else
          (chain.setRes rid (entry.withResidue (residue.addAtom (.atomE atom))), some atom)

/-! ## The serializer (`savers.py`) -/

/-- The acceptance interface of `Select`: four predicates called in order
model → chain → residue → atom; residue and atom predicates may mutate the
entity they inspect (the collapsing policy does). -/
structure Sel where
  accept_model : PModel → Bool
  accept_chain : Chain → Bool
  accept_residue : Residue → Bool × Residue
  accept_atom : Atom → Bool × Atom

/-- Translation of `Select` (savers.py lines 36-60): accept everything,
mutate nothing. -/
def selectAll : Sel :=
  ⟨fun _ => true, fun _ => true, fun r => (true, r), fun a => (true, a)⟩

/-- Translation of `NotDisordered.accept_atom` (savers.py lines 79-88). -/
def nd_accept_atom (a : Atom) : Bool × Atom :=
  if ¬ a.disordered_flag then (true, a)
  else if a.altloc = "A" then (true, { a with disordered_flag := false, altloc := " " })
  else (false, a)

/-- `accept_atom` applied to a residue child: attribute reads and writes on
a DisorderedAtom delegate to its selected variant (modelled from the spec). -/
def nd_accept_atom_entry : AtomEntry → Bool × AtomEntry
  | .atomE a =>
    let p := nd_accept_atom a
    (p.1, .atomE p.2)
  | .disAtomE d =>
    match lookupKey d.variants d.selected with
    | some a =>
      let p := nd_accept_atom a
      (p.1, .disAtomE { d with variants := setKey d.variants d.selected p.2 })
    | none => (false, .disAtomE d)

/-- The short-circuiting `any(self.accept_atom(atom) for atom in residue)`
of `NotDisordered.accept_residue`, with its side effects on the children. -/
def nd_any : List AtomEntry → Bool × List AtomEntry
  | [] => (false, [])
  | e :: es =>
    let p := nd_accept_atom_entry e
    if p.1 then (true, p.2 :: es)
    else
      let q := nd_any es
      (q.1, p.2 :: q.2)

/-- Translation of `NotDisordered.accept_residue` (savers.py lines 69-77). -/
def nd_accept_residue (r : Residue) : Bool × Residue :=
  if r.disordered = 0 then (true, r)
  else
    let p := nd_any r.atoms
    if p.1 then (true, { r with disordered := 0, atoms := p.2 })
    else (false, { r with atoms := p.2 })

/-- Translation of `NotDisordered` (savers.py lines 63-88). -/
def notDisordered : Sel :=
  ⟨fun _ => true, fun _ => true, nd_accept_residue, nd_accept_atom⟩

/-- The atom-numbering modes of `PDBIO.save`. -/
inductive Mode
  | keep
  | by_model
  | by_chain
deriving DecidableEq

/-- One output record of `PDBIO.save`, in emission order: an atom record
(carrying the serial number used and the atom written), `TER`, `MODEL`,
`ENDMDL` or `END`. -/
inductive Rec
  | atomRec (serial : Int) (hetfield segid resname : String) (resseq : Int)
      (icode chain_id : String) (a : Atom)
  | ter
  | modelRec (serial_num : Option Int)
  | endmdl
  | endRec
deriving DecidableEq

/-- The per-residue fields captured before the atom loop of `PDBIO.save`. -/
structure ResCtx where
  hetfield : String
  resseq : Int
  icode : String
  resname : String
  segid : String
  chain_id : String
deriving DecidableEq

/-- The body of the innermost loop of `PDBIO.save` (lines 279-289) for one
unpacked atom: acceptance (with its mutation), serial-number choice, record
emission, counter increment, written flag. -/
def save_atom (sel : Sel) (mode : Mode) (ctx : ResCtx) (c : Int) (a : Atom) :
    List Rec × Int × Atom × Bool :=
  match sel.accept_atom a with
  | (ok, a') =>
    if ok then
      let n := if mode = .keep then a'.serial_number else c
      ([.atomRec n ctx.hetfield ctx.segid ctx.resname ctx.resseq ctx.icode ctx.chain_id a'],
       n + 1, a', true)
    else ([], c, a', false)

/-- The shape shared by all the nested loops of `PDBIO.save`: run a step
over a list in order, threading the serial counter, concatenating emitted
records, writing the mutated elements back, and or-ing the written flags. -/
def save_list {α : Type} (step : Int → α → List Rec × Int × α × Bool) :
    Int → List α → List Rec × Int × List α × Bool
  | c, [] => ([], c, [], false)
  | c, x :: xs =>
    match step c x with
    | (r1, c1, x1, w1) =>
      match save_list step c1 xs with
      | (r2, c2, xs2, w2) => (r1 ++ r2, c2, x1 :: xs2, w1 || w2)

/-- One variant of a DisorderedAtom, processed by the atom loop. -/
def save_variant_step (sel : Sel) (mode : Mode) (ctx : ResCtx) (c : Int)
    (p : String × Atom) : List Rec × Int × (String × Atom) × Bool :=
  match save_atom sel mode ctx c p.2 with
  | (r1, c1, a1, w1) => (r1, c1, (p.1, a1), w1)

/-- The atom loop over the variants of one DisorderedAtom (the expansion
performed by `residue.get_unpacked_list()`), with write-back. -/
def save_variants (sel : Sel) (mode : Mode) (ctx : ResCtx) (c : Int)
    (vs : List (String × Atom)) : List Rec × Int × List (String × Atom) × Bool :=
  save_list (save_variant_step sel mode ctx) c vs

/-- The atom loop for one residue child (plain atom or variant expansion). -/
def save_atom_entry (sel : Sel) (mode : Mode) (ctx : ResCtx) (c : Int) :
    AtomEntry → List Rec × Int × AtomEntry × Bool
  | .atomE a =>
    match save_atom sel mode ctx c a with
    | (r1, c1, a1, w1) => (r1, c1, .atomE a1, w1)
  | .disAtomE d =>
    match save_variants sel mode ctx c d.variants with
    | (r1, c1, vs, w1) => (r1, c1, .disAtomE { d with variants := vs }, w1)

/-- The atom loop over all children of one residue. -/
def save_atom_entries (sel : Sel) (mode : Mode) (ctx : ResCtx) (c : Int)
    (es : List AtomEntry) : List Rec × Int × List AtomEntry × Bool :=
  save_list (save_atom_entry sel mode ctx) c es

/-- The residue body of `PDBIO.save` (lines 274-289): acceptance (with its
mutation), capture of the residue fields, then the atom loop. -/
def save_residue (sel : Sel) (mode : Mode) (chain_id : String) (c : Int) (r : Residue) :
    List Rec × Int × Residue × Bool :=
  match sel.accept_residue r with
  | (ok, r1) =>
    if ok then
      let ctx : ResCtx := ⟨r1.id.1, r1.id.2.1, r1.id.2.2, r1.resname, r1.segid, chain_id⟩
      match save_atom_entries sel mode ctx c r1.atoms with
      | (recs, c1, atoms1, w) => (recs, c1, { r1 with atoms := atoms1 }, w)
    else ([], c, r1, false)

/-- One variant of a DisorderedResidue, processed by the residue loop. -/
def save_res_variant_step (sel : Sel) (mode : Mode) (chain_id : String) (c : Int)
    (p : String × Residue) : List Rec × Int × (String × Residue) × Bool :=
  match save_residue sel mode chain_id c p.2 with
  | (r1, c1, res1, w1) => (r1, c1, (p.1, res1), w1)

/-- The residue loop over the variants of one DisorderedResidue (the
expansion performed by `chain.get_unpacked_list()`), with write-back. -/
def save_res_variants (sel : Sel) (mode : Mode) (chain_id : String) (c : Int)
    (vs : List (String × Residue)) : List Rec × Int × List (String × Residue) × Bool :=
  save_list (save_res_variant_step sel mode chain_id) c vs

/-- The residue loop for one chain child. -/
def save_res_entry (sel : Sel) (mode : Mode) (chain_id : String) (c : Int) :
    ResidueEntry → List Rec × Int × ResidueEntry × Bool
  | .resE r =>
    match save_residue sel mode chain_id c r with
    | (r1, c1, res1, w1) => (r1, c1, .resE res1, w1)
  | .disResE d =>
    match save_res_variants sel mode chain_id c d.variants with
    | (r1, c1, vs, w1) => (r1, c1, .disResE { d with variants := vs }, w1)

/-- One chain child, processed by the residue loop. -/
def save_res_entry_step (sel : Sel) (mode : Mode) (chain_id : String) (c : Int)
    (p : ResId × ResidueEntry) : List Rec × Int × (ResId × ResidueEntry) × Bool :=
  match save_res_entry sel mode chain_id c p.2 with
  | (r1, c1, e1, w1) => (r1, c1, (p.1, e1), w1)

/-- The residue loop over all children of one chain. -/
def save_res_entries (sel : Sel) (mode : Mode) (chain_id : String) (c : Int)
    (es : List (ResId × ResidueEntry)) :
    List Rec × Int × List (ResId × ResidueEntry) × Bool :=
  save_list (save_res_entry_step sel mode chain_id) c es

/-- The chain body of `PDBIO.save` (lines 263-291): acceptance, per-chain
counter reset under `by_chain`, the residue loop, and the trailing `TER`
emitted only when at least one atom was written for the chain. -/
def save_chain (sel : Sel) (mode : Mode) (c : Int) (ch : Chain) :
    List Rec × Int × Chain × Bool :=
  if sel.accept_chain ch then
    let c0 := if mode = .by_chain then 1 else c
    match save_res_entries sel mode ch.id c0 ch.residues with
    | (recs, c1, entries, w) =>
      (recs ++ (if w then [.ter] else []), c1, { ch with residues := entries }, w)
  else ([], c, ch, false)

/-- One keyed chain, processed by the chain loop. -/
def save_chain_step (sel : Sel) (mode : Mode) (c : Int) (p : String × Chain) :
    List Rec × Int × (String × Chain) × Bool :=
  match save_chain sel mode c p.2 with
  | (r1, c1, ch1, w1) => (r1, c1, (p.1, ch1), w1)

/-- The chain loop over all chains of one model. -/
def save_chains (sel : Sel) (mode : Mode) (c : Int) (cs : List (String × Chain)) :
    List Rec × Int × List (String × Chain) × Bool :=
  save_list (save_chain_step sel mode) c cs

/-- The model body of `PDBIO.save` (lines 252-293): acceptance, per-model
counter reset under `by_model`, the `MODEL` record when multi-model output
is active, the chain loop, and `ENDMDL` only when at least one atom was
written for the model. -/
def save_model (sel : Sel) (mode : Mode) (flag : Bool) (c : Int) (m : PModel) :
    List Rec × Int × PModel × Bool :=
  if sel.accept_model m then
    let c0 := if mode = .by_model then 1 else c
    match save_chains sel mode c0 m.chains with
    | (body, c1, chains1, w) =>
      ((if flag then [.modelRec m.serial_num] else []) ++ body
        ++ (if flag && w then [.endmdl] else []), c1, { m with chains := chains1 }, w)
  else ([], c, m, false)

/-- The model loop of `PDBIO.save`. -/
def save_models (sel : Sel) (mode : Mode) (flag : Bool) (c : Int)
    (ms : List PModel) : List Rec × Int × List PModel × Bool :=
  save_list (save_model sel mode flag) c ms

/-- Translation of `PDBIO.save` (savers.py lines 209-297) as the sequence of
records it writes, together with the structure as left behind by the
policy's in-place mutations.  Multi-model output is active when the
structure has more than one model or the explicit `use_model_flag` is set. -/
def save_structure (sel : Sel) (mode : Mode) (write_end use_model_flag : Bool)
    (s : Structure) : List Rec × Structure :=
  let flag := decide (s.models.length > 1) || use_model_flag
  match save_models sel mode flag 0 s.models with
  | (recs, _, models1, _) =>
    (recs ++ (if write_end then [.endRec] else []), { s with models := models1 })

/-- The text written for one record. -/
def renderRec : Rec → Except FmtError String
  | .atomRec n hf sg rn rs ic cid a => (get_atom_line a hf sg n rn rs ic cid).map (·.line)
  | .ter => .ok "TER\n"
  | .modelRec sn =>
    .ok ("MODEL      " ++ (match sn with | some k => toString k | none => "None") ++ "\n")
  | .endmdl => .ok "ENDMDL\n"
  | .endRec => .ok "END\n"

/-- The text written for a record sequence; the first format violation
aborts serialization with that error. -/
def render_records : List Rec → Except FmtError String
  | [] => .ok ""
  | r :: rs =>
    match renderRec r with
    | .error e => .error e
    | .ok s =>
      match render_records rs with
      | .error e => .error e
      | .ok t => .ok (s ++ t)

/-- The object kinds accepted by `PDBIO.set_structure`, each together with
the parent information the source reads through the object's parent
pointers (`pdb_object.parent.id` for a residue, `.parent.parent.id` for an
atom); `none` models an unset parent, for which the lookup raises and the
rename is skipped. -/
inductive PdbObject
  | structureO (s : Structure)
  | modelO (m : PModel)
  | chainO (c : Chain)
  | residueO (r : ResidueEntry) (parent_chain_id : Option String)
  | atomO (a : AtomEntry) (parent_chain_id : Option String)

/-- Translation of `PDBIO.set_structure` (savers.py lines 170-207): anything
below a full Structure is wrapped in a synthetic structure "pdb", adding a
model 0, a chain initially named "A" (renamed to the wrapped object's parent
chain id when available) and, for a bare atom, a fresh "DUM" residue built
through the structure builder. -/
def set_structure : PdbObject → Structure
  | .structureO s => s
  | .modelO m => ⟨"pdb", [m]⟩
  | .chainO c => ⟨"pdb", [⟨0, none, [(c.id, c)]⟩]⟩
  | .residueO r pid =>
    let chain : Chain := ⟨"A", []⟩
    let chain := match pid with | some p => { chain with id := p } | none => chain
    let chain := chain.addRes r
    ⟨"pdb", [⟨0, none, [("A", chain)]⟩]⟩
  | .atomO a pid =>
    let chain : Chain := ⟨"A", []⟩
    let chain := (init_residue chain " " "DUM" " " 1 " ").1
    let chain := match pid with | some p => { chain with id := p } | none => chain
    let chain :=
      match chain.residues with
      | (rid, .resE r) :: rest =>
        { chain with residues := (rid, ResidueEntry.resE (r.addAtom a)) :: rest }
      | other => { chain with residues := other }
    ⟨"pdb", [⟨0, none, [("A", chain)]⟩]⟩

/-! ## Observations on record sequences -/

/-- The serial numbers of the atom records of an output, in order. -/
def atomNums (recs : List Rec) : List Int :=
  recs.filterMap fun r =>
    match r with
    | .atomRec n _ _ _ _ _ _ _ => some n
    | _ => none

/-- The (serial number, atom) pairs of the atom records of an output. -/
def atomPairs (recs : List Rec) : List (Int × Atom) :=
  recs.filterMap fun r =>
    match r with
    | .atomRec n _ _ _ _ _ _ a => some (n, a)
    | _ => none

/-- Whether a record is an atom record. -/
def isAtomRec : Rec → Bool
  | .atomRec _ _ _ _ _ _ _ _ => true
  | _ => false

/-- Consecutive integers `c, c+1, ..., c+k-1`. -/
def rangeI (c : Int) : Nat → List Int
  | 0 => []
  | k + 1 => c :: rangeI (c + 1) k

/-! ## Helper lemmas -/

theorem length_spaces (n : Nat) : (spaces n).length = n := by
  simp [spaces, String.length]

theorem length_rjust (s : String) (n : Nat) :
    (rjust s n).length = (n - s.length) + s.length := by
  simp [rjust, String.length_append, length_spaces]

theorem length_ljust (s : String) (n : Nat) :
    (ljust s n).length = s.length + (n - s.length) := by
  simp [ljust, String.length_append, length_spaces]

theorem lookupKey_setKey_self {κ α : Type} [DecidableEq κ] (l : List (κ × α))
    (k : κ) (v : α) : lookupKey (setKey l k v) k = some v := by
  induction l with
  | nil => simp [setKey, lookupKey]
  | cons p rest ih =>
    obtain ⟨k', v'⟩ := p
    by_cases h : k' = k <;> simp [setKey, lookupKey, h, ih]

theorem setKey_lookup_eq {κ α : Type} [DecidableEq κ] (l : List (κ × α)) (k : κ)
    (v : α) (h : lookupKey l k = some v) : setKey l k v = l := by
  induction l with
  | nil => simp [lookupKey] at h
  | cons p rest ih =>
    obtain ⟨k', v'⟩ := p
    by_cases hk : k' = k
    · subst hk
      simp [lookupKey] at h
      simp [setKey, h]
    · simp [lookupKey, hk] at h
      simp [setKey, hk, ih h]

theorem setKey_setKey {κ α : Type} [DecidableEq κ] (l : List (κ × α)) (k : κ)
    (v w : α) : setKey (setKey l k v) k w = setKey l k w := by
  induction l with
  | nil => simp [setKey]
  | cons p rest ih =>
    obtain ⟨k', v'⟩ := p
    by_cases h : k' = k <;> simp [setKey, h, ih]

theorem setKey_of_lookup_none {κ α : Type} [DecidableEq κ] (l : List (κ × α))
    (k : κ) (v : α) (h : lookupKey l k = none) : setKey l k v = l ++ [(k, v)] := by
  induction l with
  | nil => simp [setKey]
  | cons p rest ih =>
    obtain ⟨k', v'⟩ := p
    by_cases hk : k' = k
    · subst hk; simp [lookupKey] at h
    · simp [lookupKey, hk] at h
      simp [setKey, hk, ih h]

theorem lookupKey_of_not_mem {κ α : Type} [DecidableEq κ] (l : List (κ × α))
    (k : κ) (h : k ∉ l.map Prod.fst) : lookupKey l k = none := by
  induction l with
  | nil => simp [lookupKey]
  | cons p rest ih =>
    obtain ⟨k', v'⟩ := p
    simp only [List.map_cons, List.mem_cons] at h
    push_neg at h
    have hne : ¬ k' = k := fun hc => h.1 hc.symm
    simp [lookupKey, hne, ih h.2]

theorem lookupKey_eraseKey_nodup {κ α : Type} [DecidableEq κ] (l : List (κ × α))
    (k : κ) (h : (l.map Prod.fst).Nodup) : lookupKey (eraseKey l k) k = none := by
  induction l with
  | nil => simp [eraseKey, lookupKey]
  | cons p rest ih =>
    obtain ⟨k', v'⟩ := p
    simp only [List.map_cons, List.nodup_cons] at h
    by_cases hk : k' = k
    · subst hk
      simp only [eraseKey, if_pos rfl]
      exact lookupKey_of_not_mem rest k' h.1
    · simp [eraseKey, hk, lookupKey, ih h.2]

/-- Record width arithmetic: when every variable field of the atom line fits
its column, the assembled record is exactly 81 characters. -/
theorem atom_line_length (rt nm alt rn ci ic sg el ch sn rs xs ys zs ocs bfs : String)
    (hrt : rt.length = 6) (hnm : nm.length ≤ 4) (hsn : sn.length ≤ 5)
    (halt : alt.length ≤ 1) (hrn : rn.length ≤ 3) (hci : ci.length ≤ 2)
    (hrs : rs.length ≤ 4) (hic : ic.length ≤ 1) (hx : xs.length ≤ 8)
    (hy : ys.length ≤ 8) (hz : zs.length ≤ 8) (hoc : ocs.length ≤ 6)
    (hbf : bfs.length ≤ 6) (hsg : sg.length ≤ 7) (hel : el.length ≤ 5)
    (hch : ch.length ≤ 2) :
    (rt ++ rjust sn 5 ++ " " ++ ljust (rjust (ljust nm 3) 4) 4 ++ ljust alt 1
      ++ rjust rn 3 ++ rjust ci 2 ++ rjust rs 4 ++ ljust ic 1 ++ "   "
      ++ rjust xs 8 ++ rjust ys 8 ++ rjust zs 8 ++ ljust ocs 6 ++ ljust bfs 6
      ++ rjust sg 7 ++ rjust el 5 ++ rjust ch 2 ++ "\n").length = 81 := by
  have hs1 : (" " : String).length = 1 := rfl
  have hs3 : ("   " : String).length = 3 := rfl
  have hnl : ("\n" : String).length = 1 := rfl
  simp only [String.length_append, length_rjust, length_ljust, hrt, hs1, hs3, hnl]
  omega

/-! ## Claim C6 -/

/-- C6 (amended): every atom record the formatter successfully emits is
exactly 81 characters including the trailing newline, and the in-code width
check passes whenever every formatted field fits its fixed column (element
and occupancy having passed their own checks); it is not the case that the
check never fails regardless of the field values — see the
counterexample. -/
theorem C6_record_width (a : Atom) (hetfield segid : String) (atom_number : Int)
    (resname : String) (resseq : Int) (icode chain_id charge : String)
    (el : String) (os : String) (w : Bool)
    (hel : format_element a.element = .ok el) (hel5 : el.length ≤ 5)
    (hoc : format_occupancy a.occupancy = .ok (os, w)) (hoc6 : os.length ≤ 6)
    (hb : (format_bfactor a.bfactor).length ≤ 6)
    (hname : (stripSpaces a.fullname).length ≤ 4)
    (hnum : (toString atom_number).length ≤ 5)
    (halt : a.altloc.length ≤ 1)
    (hres : resname.length ≤ 3) (hch : chain_id.length ≤ 2)
    (hseq : (toString resseq).length ≤ 4) (hic : icode.length ≤ 1)
    (hx : (fixedFmt a.x 3).length ≤ 8) (hy : (fixedFmt a.y 3).length ≤ 8)
    (hz : (fixedFmt a.z 3).length ≤ 8)
    (hseg : segid.length ≤ 7) (hcharge : charge.length ≤ 2) :
    ∃ r, get_atom_line a hetfield segid atom_number resname resseq icode chain_id charge
        = .ok r ∧ r.line.length = 81 := by
  have hrt : (if hetfield ≠ " " then "HETATM" else "ATOM  ").length = 6 := by
    split <;> rfl
  have h81 := atom_line_length (if hetfield ≠ " " then "HETATM" else "ATOM  ")
    (stripSpaces a.fullname) a.altloc resname chain_id icode segid el charge
    (toString atom_number) (toString resseq)
    (fixedFmt a.x 3) (fixedFmt a.y 3) (fixedFmt a.z 3) os (format_bfactor a.bfactor)
    hrt hname hnum halt hres hch hseq hic hx hy hz hoc6 hb hseg hel5 hcharge
  simp only [get_atom_line, hel, hoc, h81, reduceIte]
  exact ⟨_, rfl, h81⟩

/-- C6 counterexample: an atom whose name is five characters after stripping
makes the assembled record 82 characters wide, so the width check fails and
no record is emitted — refuting the claim that the check never fails
regardless of the atom's name length. -/
theorem C6_record_width_counterexample :
    get_atom_line ⟨"ABCDE", "ABCDE", 0, 0, 0, 0, .val 100, " ", 1, none, false⟩
      " " "    " 7 "ALA" 15 " " "A" "  " = .error (.widthMismatch 82) := by rfl

/-- C6 witness: a well-formed concrete atom for which the amended theorem
emits an 81-character record. -/
theorem C6_record_width_witness :
    ∃ r, get_atom_line ⟨"CA", " CA ", 1234, -5678, 0, 1575, .val 100, " ", 7, some "C", false⟩
        " " "    " 7 "ALA" 15 " " "A" "  " = .ok r ∧ r.line.length = 81 :=
  C6_record_width ⟨"CA", " CA ", 1234, -5678, 0, 1575, .val 100, " ", 7, some "C", false⟩
    " " "    " 7 "ALA" 15 " " "A" "  " " C" "  1.00" false
    rfl (by decide) rfl (by decide) (by decide) (by decide)
    (by decide) (by decide) (by decide) (by decide) (by decide) (by decide)
    (by decide) (by decide) (by decide) (by decide) (by decide)

/-! ## Claim C7 -/

/-- C7: during record formatting an element symbol not found in the known
element-weight table is a fatal error, and a non-numeric occupancy is a
fatal error unless the occupancy is absent, in which case the occupancy
field is written as six blanks with a warning; a fatal error propagates
through record rendering, so serialization aborts rather than producing
output treated as valid. -/
theorem C7_format_violations :
    (∀ (a : Atom) (hetfield segid : String) (atom_number : Int) (resname : String)
       (resseq : Int) (icode chain_id charge : String) (e : String),
       a.element = some e → e ≠ "" →
       capitalizeStr (upperStr (stripSpaces e)) ∉ atom_weights →
       get_atom_line a hetfield segid atom_number resname resseq icode chain_id charge
         = .error (.unrecognisedElement e)) ∧
    (∀ (a : Atom) (hetfield segid : String) (atom_number : Int) (resname : String)
       (resseq : Int) (icode chain_id charge el : String),
       a.occupancy = .invalid → format_element a.element = .ok el →
       get_atom_line a hetfield segid atom_number resname resseq icode chain_id charge
         = .error .invalidOccupancy) ∧
    format_occupancy .missing = .ok (spaces 6, true) ∧
    (∀ (recs : List Rec) (r : Rec) (e : FmtError),
       r ∈ recs → renderRec r = .error e → ∃ e', render_records recs = .error e') := by
  refine ⟨?_, ?_, rfl, ?_⟩
  · intro a hetfield segid atom_number resname resseq icode chain_id charge e hsome hne hnotin
    have helem : format_element a.element = .error (.unrecognisedElement e) := by
      simp [format_element, hsome, hne, hnotin]
    simp [get_atom_line, helem]
  · intro a hetfield segid atom_number resname resseq icode chain_id charge el hinv hel
    have hocc : format_occupancy a.occupancy = .error .invalidOccupancy := by
      simp [format_occupancy, hinv]
    simp [get_atom_line, hel, hocc]
  · intro recs r e hmem hrender
    induction recs with
    | nil => simp at hmem
    | cons hd tl ih =>
      rcases List.mem_cons.mp hmem with heq | hmem2
      · subst heq
        exact ⟨e, by simp [render_records, hrender]⟩
      · rcases hrd : renderRec hd with e2 | s2
        · exact ⟨e2, by simp [render_records, hrd]⟩
        · obtain ⟨e', he'⟩ := ih hmem2
          exact ⟨e', by simp [render_records, hrd, he']⟩

/-- C7 witness: concrete instances of each fatal and non-fatal case. -/
theorem C7_format_violations_witness :
    get_atom_line ⟨"CA", " CA ", 0, 0, 0, 0, .val 100, " ", 1, some "XX", false⟩
        " " "    " 1 "ALA" 1 " " "A" "  " = .error (.unrecognisedElement "XX") ∧
    get_atom_line ⟨"CA", " CA ", 0, 0, 0, 0, .invalid, " ", 1, none, false⟩
        " " "    " 1 "ALA" 1 " " "A" "  " = .error .invalidOccupancy ∧
    ∃ e', render_records
        [.atomRec 1 " " "    " "ALA" 1 " " "A"
           ⟨"CA", " CA ", 0, 0, 0, 0, .invalid, " ", 1, none, false⟩] = .error e' :=
  ⟨C7_format_violations.1 _ " " "    " 1 "ALA" 1 " " "A" "  " "XX" rfl (by decide) (by decide),
   C7_format_violations.2.1 _ " " "    " 1 "ALA" 1 " " "A" "  " "  " rfl rfl,
   C7_format_violations.2.2.2 _ _ FmtError.invalidOccupancy (List.mem_singleton.mpr rfl)
     rfl⟩


/-! ## Claims C1, C2, C9, C10 -/

theorem addAtom_go_append (e : AtomEntry) :
    ∀ (l : List AtomEntry), (∀ x ∈ l, ¬ x.key = e.key) →
      Residue.addAtom.go e l = l ++ [e]
  | [], _ => rfl
  | x :: xs, h => by
    simp only [Residue.addAtom.go, if_neg (h x (List.mem_cons_self _ _)), List.cons_append,
      addAtom_go_append e xs (fun a ha => h a (List.mem_cons_of_mem _ ha))]

theorem addAtom_append (r : Residue) (e : AtomEntry) (h : r.getAtom e.key = none) :
    (r.addAtom e).atoms = r.atoms ++ [e] := by
  simp only [Residue.getAtom, List.find?_eq_none, decide_eq_true_eq] at h
  simp only [Residue.addAtom]
  exact addAtom_go_append e r.atoms h

theorem addAtom_eq (r : Residue) (e : AtomEntry) (h : r.getAtom e.key = none) :
    r.addAtom e = { r with atoms := r.atoms ++ [e] } := by
  simp only [Residue.getAtom, List.find?_eq_none, decide_eq_true_eq] at h
  simp only [Residue.addAtom]
  congr 1
  exact addAtom_go_append e r.atoms h

/-- C1: the claim (and the spec) says that a `begin_residue` event whose
key holds a DisorderedResidue already containing a variant named `resname`
selects and reuses that variant with no new node.  The code does not do
this: the re-select branch (structure_builder.py lines 125-128) lacks the
`return` that every other branch of `init_residue` ends with, so control
falls through to lines 169-170, which create a fresh, empty plain Residue
and `chain.add` it over the occupied key — here replacing a wrapper holding
ALA (with an atom) and GLY variants by an empty ALA residue.  The branch's
own comment ("the residue was already made") and its dead
`self.residue = duplicate_residue` assignment show reuse was the intent, so
this is a slip in the code, not in the claim.  The first conjunct exhibits
that the wrapper does have an `ALA` variant; the second evaluates the
builder at that input. -/
theorem C1_begin_residue_disordered_reuse_bug :
    (DisorderedResidue.disordered_has_id
      ⟨(" ", 5, " "),
        [("ALA", ⟨(" ", 5, " "), "ALA", " ", 1,
           [.disAtomE ⟨"CA", [("A", ⟨"CA", " CA ", 0, 0, 0, 0, .val 50, "A", 1,
             none, true⟩)], "A", some 50⟩]⟩),
         ("GLY", ⟨(" ", 5, " "), "GLY", " ", 0, []⟩)], "GLY"⟩ "ALA" = true) ∧
    init_residue ⟨"X", [((" ", 5, " "),
        .disResE ⟨(" ", 5, " "),
          [("ALA", ⟨(" ", 5, " "), "ALA", " ", 1,
             [.disAtomE ⟨"CA", [("A", ⟨"CA", " CA ", 0, 0, 0, 0, .val 50, "A", 1,
               none, true⟩)], "A", some 50⟩]⟩),
           ("GLY", ⟨(" ", 5, " "), "GLY", " ", 0, []⟩)], "GLY"⟩)]⟩
      " " "ALA" " " 5 " "
      = (⟨"X", [((" ", 5, " "), .resE ⟨(" ", 5, " "), "ALA", " ", 0, []⟩)]⟩,
         some (" ", 5, " "), none) :=
  ⟨rfl, rfl⟩

/-- C2: a point-mutation conflict against a residue that is not completely
disordered reports a distinct catchable construction exception, the chain is
left unchanged (the offending residue is absent), the current residue
becomes none so every subsequent `init_atom` is a no-op, and the builder
remains usable (a subsequent water residue event succeeds unconditionally). -/
theorem C2_construction_invariant_recovery (chain : Chain) (segid resname : String) (resseq : Int)
    (icode : String) (r : Residue)
    (hlook : chain.lookupRes (" ", resseq, icode) = some (.resE r))
    (hname : resname ≠ r.resname)
    (hblank : is_completely_disordered r = false) :
    (∃ exc : PDBConstructionException,
       init_residue chain segid resname " " resseq icode = (chain, none, some exc)) ∧
    (∀ name0 x y z b occ altloc fullname ser elem,
       init_atom chain none name0 x y z b occ altloc fullname ser elem = (chain, none)) ∧
    (∀ rn rq ic, init_residue chain segid rn "W" rq ic
       = (chain.addRes (.resE ⟨("W", rq, ic), rn, segid, 0, []⟩), some ("W", rq, ic), none)) := by
  have hne : ¬ (resname = r.resname) := hname
  refine ⟨⟨⟨"Blank altlocs in duplicate residue " ++ resname ++ " ('" ++ " " ++ "', "
      ++ toString resseq ++ ", '" ++ icode ++ "')"⟩, ?_⟩, ?_, ?_⟩
  · simp [init_residue, hlook, hne, hblank]
  · intro name0 x y z b occ altloc fullname ser elem
    rfl
  · intro rn rq ic
    simp [init_residue]


/-- C2 witness: the blank-altloc conflict on a concrete chain. -/
theorem C2_construction_invariant_recovery_witness :
    (∃ exc, init_residue ⟨"X", [((" ", 5, " "),
        .resE ⟨(" ", 5, " "), "ALA", " ", 0,
          [.atomE ⟨"CA", " CA ", 0, 0, 0, 0, .val 50, " ", 1, none, false⟩]⟩)]⟩
        " " "GLY" " " 5 " "
      = (⟨"X", [((" ", 5, " "),
          .resE ⟨(" ", 5, " "), "ALA", " ", 0,
            [.atomE ⟨"CA", " CA ", 0, 0, 0, 0, .val 50, " ", 1, none, false⟩]⟩)]⟩, none, some exc)) ∧
    init_atom ⟨"X", [((" ", 5, " "),
        .resE ⟨(" ", 5, " "), "ALA", " ", 0,
          [.atomE ⟨"CA", " CA ", 0, 0, 0, 0, .val 50, " ", 1, none, false⟩]⟩)]⟩
        none "N" 0 0 0 0 (.val 50) " " " N " 2 none
      = (⟨"X", [((" ", 5, " "),
          .resE ⟨(" ", 5, " "), "ALA", " ", 0,
            [.atomE ⟨"CA", " CA ", 0, 0, 0, 0, .val 50, " ", 1, none, false⟩]⟩)]⟩, none) ∧
    init_residue ⟨"X", [((" ", 5, " "),
        .resE ⟨(" ", 5, " "), "ALA", " ", 0,
          [.atomE ⟨"CA", " CA ", 0, 0, 0, 0, .val 50, " ", 1, none, false⟩]⟩)]⟩
        " " "HOH" "W" 9 " "
      = (Chain.addRes ⟨"X", [((" ", 5, " "),
          .resE ⟨(" ", 5, " "), "ALA", " ", 0,
            [.atomE ⟨"CA", " CA ", 0, 0, 0, 0, .val 50, " ", 1, none, false⟩]⟩)]⟩
          (.resE ⟨("W", 9, " "), "HOH", " ", 0, []⟩), some ("W", 9, " "), none) := by
  have h := C2_construction_invariant_recovery ⟨"X", [((" ", 5, " "),
      .resE ⟨(" ", 5, " "), "ALA", " ", 0,
        [.atomE ⟨"CA", " CA ", 0, 0, 0, 0, .val 50, " ", 1, none, false⟩]⟩)]⟩
    " " "GLY" 5 " "
    ⟨(" ", 5, " "), "ALA", " ", 0,
      [.atomE ⟨"CA", " CA ", 0, 0, 0, 0, .val 50, " ", 1, none, false⟩]⟩
    rfl (by decide) (by decide)
  exact ⟨h.1, h.2.1 "N" 0 0 0 0 (.val 50) " " " N " 2 none, h.2.2 "HOH" 9 " "⟩


/-- C9: when `init_atom` finds an existing entry at the stripped name whose
stored full name differs from the incoming full name, the incoming atom is
stored under its full name verbatim as its key and the residue ends up with
both atoms, the second carrying the padded full name as its canonical name;
when the full names are equal no renaming occurs. -/
theorem C9_atom_renaming (chain : Chain) (rid : ResId) (r : Residue)
    (name0 : String) (x y z b : Int) (occ : Occupancy) (fullname : String)
    (ser : Int) (elem : Option String) (ae : AtomEntry)
    (hlook : chain.lookupRes rid = some (.resE r))
    (hget : r.getAtom name0 = some ae) :
    (ae.fullname ≠ some fullname → r.getAtom fullname = none →
      init_atom chain (some rid) name0 x y z b occ " " fullname ser elem
        = (chain.setRes rid (.resE (r.addAtom
            (.atomE ⟨fullname, fullname, x, y, z, b, occ, " ", ser, elem, false⟩))),
           some ⟨fullname, fullname, x, y, z, b, occ, " ", ser, elem, false⟩) ∧
      (r.addAtom (.atomE ⟨fullname, fullname, x, y, z, b, occ, " ", ser, elem, false⟩)).atoms
        = r.atoms ++ [.atomE ⟨fullname, fullname, x, y, z, b, occ, " ", ser, elem, false⟩]) ∧
    (ae.fullname = some fullname →
      init_atom chain (some rid) name0 x y z b occ " " fullname ser elem
        = (chain.setRes rid (.resE (r.addAtom
            (.atomE ⟨name0, fullname, x, y, z, b, occ, " ", ser, elem, false⟩))),
           some ⟨name0, fullname, x, y, z, b, occ, " ", ser, elem, false⟩)) := by
  constructor
  · intro hdiff hnone
    constructor
    · simp [init_atom, hlook, ResidueEntry.residueFor, hget, hdiff, ResidueEntry.withResidue]
    · have hadd := addAtom_eq r
        (.atomE ⟨fullname, fullname, x, y, z, b, occ, " ", ser, elem, false⟩)
        (by simpa [AtomEntry.key] using hnone)
      rw [hadd]
  · intro heq
    simp [init_atom, hlook, ResidueEntry.residueFor, hget, heq, ResidueEntry.withResidue]

/-- C9 witness: atoms `CA..` and `.CA.` colliding at stripped name `CA`. -/
theorem C9_atom_renaming_witness :
    init_atom ⟨"X", [((" ", 7, " "),
        .resE ⟨(" ", 7, " "), "ALA", " ", 0,
          [.atomE ⟨"CA", "CA..", 0, 0, 0, 0, .val 50, " ", 1, none, false⟩]⟩)]⟩
      (some (" ", 7, " ")) "CA" 0 0 0 0 (.val 50) " " ".CA." 2 none
      = (Chain.setRes ⟨"X", [((" ", 7, " "),
          .resE ⟨(" ", 7, " "), "ALA", " ", 0,
            [.atomE ⟨"CA", "CA..", 0, 0, 0, 0, .val 50, " ", 1, none, false⟩]⟩)]⟩
          (" ", 7, " ")
          (.resE (Residue.addAtom ⟨(" ", 7, " "), "ALA", " ", 0,
            [.atomE ⟨"CA", "CA..", 0, 0, 0, 0, .val 50, " ", 1, none, false⟩]⟩
            (.atomE ⟨".CA.", ".CA.", 0, 0, 0, 0, .val 50, " ", 2, none, false⟩))),
         some ⟨".CA.", ".CA.", 0, 0, 0, 0, .val 50, " ", 2, none, false⟩) ∧
    (Residue.addAtom ⟨(" ", 7, " "), "ALA", " ", 0,
        [.atomE ⟨"CA", "CA..", 0, 0, 0, 0, .val 50, " ", 1, none, false⟩]⟩
        (.atomE ⟨".CA.", ".CA.", 0, 0, 0, 0, .val 50, " ", 2, none, false⟩)).atoms
      = [.atomE ⟨"CA", "CA..", 0, 0, 0, 0, .val 50, " ", 1, none, false⟩,
         .atomE ⟨".CA.", ".CA.", 0, 0, 0, 0, .val 50, " ", 2, none, false⟩] :=
  (C9_atom_renaming ⟨"X", [((" ", 7, " "),
      .resE ⟨(" ", 7, " "), "ALA", " ", 0,
        [.atomE ⟨"CA", "CA..", 0, 0, 0, 0, .val 50, " ", 1, none, false⟩]⟩)]⟩
    (" ", 7, " ")
    ⟨(" ", 7, " "), "ALA", " ", 0,
      [.atomE ⟨"CA", "CA..", 0, 0, 0, 0, .val 50, " ", 1, none, false⟩]⟩
    "CA" 0 0 0 0 (.val 50) ".CA." 2 none
    (.atomE ⟨"CA", "CA..", 0, 0, 0, 0, .val 50, " ", 1, none, false⟩)
    rfl rfl).1 (by decide) rfl

/-- C10: `set_structure` wraps any non-Structure object in a synthetic
structure with id "pdb": a Model directly under it; a Chain under a new
model 0; a Residue under model 0 in a chain initially named "A" and renamed
to the residue's parent chain id when available; an Atom additionally inside
a fresh residue named "DUM" with id (" ", 1, " ") — the wrapped object being
reachable in the resulting structure in every case. -/
theorem C10_set_structure_wrapping :
    (∀ s, set_structure (.structureO s) = s) ∧
    (∀ m, set_structure (.modelO m) = ⟨"pdb", [m]⟩) ∧
    (∀ c, set_structure (.chainO c) = ⟨"pdb", [⟨0, none, [(c.id, c)]⟩]⟩) ∧
    (∀ r pid, set_structure (.residueO r pid)
      = ⟨"pdb", [⟨0, none, [("A", ⟨pid.getD "A", [(r.rid, r)]⟩)]⟩]⟩) ∧
    (∀ a pid, set_structure (.atomO a pid)
      = ⟨"pdb", [⟨0, none, [("A", ⟨pid.getD "A",
          [((" ", 1, " "), .resE ⟨(" ", 1, " "), "DUM", " ", 0, [a]⟩)]⟩)]⟩]⟩) := by
  refine ⟨fun s => rfl, fun m => rfl, fun c => rfl, ?_, ?_⟩
  · intro r pid
    cases pid <;> rfl
  · intro a pid
    cases pid <;> rfl


/-! ## Serializer lemmas and claims C3, C4, C5, C8 -/

theorem atomNums_append (l1 l2 : List Rec) :
    atomNums (l1 ++ l2) = atomNums l1 ++ atomNums l2 := by
  simp [atomNums, List.filterMap_append]

theorem atomPairs_append (l1 l2 : List Rec) :
    atomPairs (l1 ++ l2) = atomPairs l1 ++ atomPairs l2 := by
  simp [atomPairs, List.filterMap_append]

theorem rangeI_append : ∀ (c : Int) (k1 k2 : Nat),
    rangeI c k1 ++ rangeI (c + k1) k2 = rangeI c (k1 + k2)
  | c, 0, k2 => by simp [rangeI]
  | c, k1 + 1, k2 => by
    have h : c + ↑(k1 + 1) = (c + 1) + ↑k1 := by push_cast; ring
    have h2 : k1 + 1 + k2 = (k1 + k2) + 1 := by omega
    simp only [rangeI, List.cons_append, h, rangeI_append (c + 1) k1 k2, h2]

theorem save_list_fix {α : Type} (step : Int → α → List Rec × Int × α × Bool)
    (hstep : ∀ c x, step c (step c x).2.2.1 = step c x) :
    ∀ (c : Int) (xs : List α),
      save_list step c (save_list step c xs).2.2.1 = save_list step c xs
  | c, [] => rfl
  | c, x :: xs => by
    rcases h1 : step c x with ⟨r1, c1, x1, w1⟩
    rcases h2 : save_list step c1 xs with ⟨r2, c2, xs2, w2⟩
    have hx1 : step c x1 = (r1, c1, x1, w1) := by
      have := hstep c x
      rw [h1] at this
      simpa [h1] using this
    have hxs2 : save_list step c1 xs2 = (r2, c2, xs2, w2) := by
      have := save_list_fix step hstep c1 xs
      rw [h2] at this
      simpa [h2] using this
    simp only [save_list, h1, h2, hx1, hxs2]

theorem save_list_length {α : Type} (step : Int → α → List Rec × Int × α × Bool) :
    ∀ (c : Int) (xs : List α), (save_list step c xs).2.2.1.length = xs.length
  | _, [] => rfl
  | c, x :: xs => by
    rcases h1 : step c x with ⟨r1, c1, x1, w1⟩
    rcases h2 : save_list step c1 xs with ⟨r2, c2, xs2, w2⟩
    have := save_list_length step c1 xs
    rw [h2] at this
    simp only [save_list, h1, h2, List.length_cons, this]

theorem save_list_nums {α : Type} (step : Int → α → List Rec × Int × α × Bool)
    (hstep : ∀ c x, ∃ k, atomNums (step c x).1 = rangeI c k ∧ (step c x).2.1 = c + k) :
    ∀ (c : Int) (xs : List α),
      ∃ k, atomNums (save_list step c xs).1 = rangeI c k ∧
        (save_list step c xs).2.1 = c + k
  | c, [] => ⟨0, by simp [save_list, atomNums, rangeI], by simp [save_list]⟩
  | c, x :: xs => by
    rcases h1 : step c x with ⟨r1, c1, x1, w1⟩
    rcases h2 : save_list step c1 xs with ⟨r2, c2, xs2, w2⟩
    obtain ⟨k1, hn1, hc1⟩ := hstep c x
    rw [h1] at hn1 hc1
    have hn1' : atomNums r1 = rangeI c k1 := hn1
    have hc1' : c1 = c + k1 := hc1
    obtain ⟨k2, hn2, hc2⟩ := save_list_nums step hstep c1 xs
    rw [h2] at hn2 hc2
    have hn2' : atomNums r2 = rangeI c1 k2 := hn2
    have hc2' : c2 = c1 + k2 := hc2
    rw [hc1'] at hn2'
    refine ⟨k1 + k2, ?_, ?_⟩
    · simp only [save_list, h1, h2, atomNums_append, hn1', hn2']
      exact rangeI_append c k1 k2
    · simp only [save_list, h1, h2]
      show c2 = c + ↑(k1 + k2)
      omega

theorem save_list_pred {α : Type} (P : Rec → Prop)
    (step : Int → α → List Rec × Int × α × Bool)
    (hstep : ∀ c x, ∀ r ∈ (step c x).1, P r) :
    ∀ (c : Int) (xs : List α), ∀ r ∈ (save_list step c xs).1, P r
  | c, [] => by simp [save_list]
  | c, x :: xs => by
    rcases h1 : step c x with ⟨r1, c1, x1, w1⟩
    rcases h2 : save_list step c1 xs with ⟨r2, c2, xs2, w2⟩
    have hp1 := hstep c x
    rw [h1] at hp1
    have hp2 := save_list_pred P step hstep c1 xs
    rw [h2] at hp2
    simp only [save_list, h1, h2]
    intro r hr
    rcases List.mem_append.mp hr with hl | hl
    · exact hp1 r hl
    · exact hp2 r hl

theorem save_list_wiff {α : Type} (step : Int → α → List Rec × Int × α × Bool)
    (hstep : ∀ c x, (step c x).2.2.2 = true ↔ atomNums (step c x).1 ≠ []) :
    ∀ (c : Int) (xs : List α),
      (save_list step c xs).2.2.2 = true ↔ atomNums (save_list step c xs).1 ≠ []
  | c, [] => by simp [save_list, atomNums]
  | c, x :: xs => by
    rcases h1 : step c x with ⟨r1, c1, x1, w1⟩
    rcases h2 : save_list step c1 xs with ⟨r2, c2, xs2, w2⟩
    have hw1 := hstep c x
    rw [h1] at hw1
    have hw1' : w1 = true ↔ atomNums r1 ≠ [] := hw1
    have hw2 := save_list_wiff step hstep c1 xs
    rw [h2] at hw2
    have hw2' : w2 = true ↔ atomNums r2 ≠ [] := hw2
    simp only [save_list, h1, h2, atomNums_append]
    constructor
    · intro h hc
      rw [List.append_eq_nil] at hc
      have h' : w1 = true ∨ w2 = true := by simpa using h
      rcases h' with h | h
      · exact (hw1'.mp h) hc.1
      · exact (hw2'.mp h) hc.2
    · intro h
      by_cases h1e : atomNums r1 = []
      · have h2e : atomNums r2 ≠ [] := fun hc => h (by simp [h1e, hc])
        simp [hw2'.mpr h2e]
      · simp [hw1'.mpr h1e]

theorem save_list_keep {α : Type} (step : Int → α → List Rec × Int × α × Bool)
    (hstep : ∀ c x, ∀ p ∈ atomPairs (step c x).1, p.1 = p.2.serial_number) :
    ∀ (c : Int) (xs : List α),
      ∀ p ∈ atomPairs (save_list step c xs).1, p.1 = p.2.serial_number
  | c, [] => by simp [save_list, atomPairs]
  | c, x :: xs => by
    rcases h1 : step c x with ⟨r1, c1, x1, w1⟩
    rcases h2 : save_list step c1 xs with ⟨r2, c2, xs2, w2⟩
    have hp1 := hstep c x
    rw [h1] at hp1
    have hp2 := save_list_keep step hstep c1 xs
    rw [h2] at hp2
    simp only [save_list, h1, h2, atomPairs_append]
    intro p hp
    rcases List.mem_append.mp hp with hl | hl
    · exact hp1 p hl
    · exact hp2 p hl
theorem save_atom_nums (sel : Sel) (mode : Mode) (ctx : ResCtx) (hm : mode ≠ .keep)
    (c : Int) (a : Atom) :
    ∃ k, atomNums (save_atom sel mode ctx c a).1 = rangeI c k ∧
      (save_atom sel mode ctx c a).2.1 = c + k := by
  rcases h : sel.accept_atom a with ⟨ok, a'⟩
  cases ok
  · exact ⟨0, by simp [save_atom, h, atomNums, rangeI], by simp [save_atom, h]⟩
  · refine ⟨1, ?_, ?_⟩ <;> simp [save_atom, h, hm, atomNums, rangeI]

theorem save_atom_pred (sel : Sel) (mode : Mode) (ctx : ResCtx) (c : Int) (a : Atom) :
    ∀ r ∈ (save_atom sel mode ctx c a).1, isAtomRec r = true := by
  rcases h : sel.accept_atom a with ⟨ok, a'⟩
  cases ok <;> simp [save_atom, h, isAtomRec]

theorem save_atom_wiff (sel : Sel) (mode : Mode) (ctx : ResCtx) (c : Int) (a : Atom) :
    (save_atom sel mode ctx c a).2.2.2 = true ↔
      atomNums (save_atom sel mode ctx c a).1 ≠ [] := by
  rcases h : sel.accept_atom a with ⟨ok, a'⟩
  cases ok <;> simp [save_atom, h, atomNums]

theorem save_variant_step_nums (sel : Sel) (mode : Mode) (ctx : ResCtx)
    (hm : mode ≠ .keep) (c : Int) (p : String × Atom) :
    ∃ k, atomNums (save_variant_step sel mode ctx c p).1 = rangeI c k ∧
      (save_variant_step sel mode ctx c p).2.1 = c + k := by
  obtain ⟨k, h1, h2⟩ := save_atom_nums sel mode ctx hm c p.2
  rcases h : save_atom sel mode ctx c p.2 with ⟨r1, c1, a1, w1⟩
  rw [h] at h1 h2
  exact ⟨k, by simpa [save_variant_step, h] using h1, by simpa [save_variant_step, h] using h2⟩

theorem save_variant_step_pred (sel : Sel) (mode : Mode) (ctx : ResCtx) (c : Int)
    (p : String × Atom) :
    ∀ r ∈ (save_variant_step sel mode ctx c p).1, isAtomRec r = true := by
  have := save_atom_pred sel mode ctx c p.2
  rcases h : save_atom sel mode ctx c p.2 with ⟨r1, c1, a1, w1⟩
  rw [h] at this
  simpa [save_variant_step, h] using this

theorem save_variant_step_wiff (sel : Sel) (mode : Mode) (ctx : ResCtx) (c : Int)
    (p : String × Atom) :
    (save_variant_step sel mode ctx c p).2.2.2 = true ↔
      atomNums (save_variant_step sel mode ctx c p).1 ≠ [] := by
  have := save_atom_wiff sel mode ctx c p.2
  rcases h : save_atom sel mode ctx c p.2 with ⟨r1, c1, a1, w1⟩
  rw [h] at this
  simpa [save_variant_step, h] using this

theorem save_atom_entry_nums (sel : Sel) (mode : Mode) (ctx : ResCtx)
    (hm : mode ≠ .keep) (c : Int) (e : AtomEntry) :
    ∃ k, atomNums (save_atom_entry sel mode ctx c e).1 = rangeI c k ∧
      (save_atom_entry sel mode ctx c e).2.1 = c + k := by
  cases e with
  | atomE a =>
    obtain ⟨k, h1, h2⟩ := save_atom_nums sel mode ctx hm c a
    rcases h : save_atom sel mode ctx c a with ⟨r1, c1, a1, w1⟩
    rw [h] at h1 h2
    exact ⟨k, by simpa [save_atom_entry, h] using h1,
      by simpa [save_atom_entry, h] using h2⟩
  | disAtomE d =>
    obtain ⟨k, h1, h2⟩ := save_list_nums _ (save_variant_step_nums sel mode ctx hm) c d.variants
    rcases h : save_list (save_variant_step sel mode ctx) c d.variants with ⟨r1, c1, vs, w1⟩
    rw [h] at h1 h2
    exact ⟨k, by simpa [save_atom_entry, save_variants, h] using h1,
      by simpa [save_atom_entry, save_variants, h] using h2⟩

theorem save_atom_entry_pred (sel : Sel) (mode : Mode) (ctx : ResCtx) (c : Int)
    (e : AtomEntry) :
    ∀ r ∈ (save_atom_entry sel mode ctx c e).1, isAtomRec r = true := by
  cases e with
  | atomE a =>
    have := save_atom_pred sel mode ctx c a
    rcases h : save_atom sel mode ctx c a with ⟨r1, c1, a1, w1⟩
    rw [h] at this
    simpa [save_atom_entry, h] using this
  | disAtomE d =>
    have := save_list_pred _ _ (save_variant_step_pred sel mode ctx) c d.variants
    rcases h : save_list (save_variant_step sel mode ctx) c d.variants with ⟨r1, c1, vs, w1⟩
    rw [h] at this
    simpa [save_atom_entry, save_variants, h] using this

theorem save_atom_entry_wiff (sel : Sel) (mode : Mode) (ctx : ResCtx) (c : Int)
    (e : AtomEntry) :
    (save_atom_entry sel mode ctx c e).2.2.2 = true ↔
      atomNums (save_atom_entry sel mode ctx c e).1 ≠ [] := by
  cases e with
  | atomE a =>
    have := save_atom_wiff sel mode ctx c a
    rcases h : save_atom sel mode ctx c a with ⟨r1, c1, a1, w1⟩
    rw [h] at this
    simpa [save_atom_entry, h] using this
  | disAtomE d =>
    have := save_list_wiff _ (save_variant_step_wiff sel mode ctx) c d.variants
    rcases h : save_list (save_variant_step sel mode ctx) c d.variants with ⟨r1, c1, vs, w1⟩
    rw [h] at this
    simpa [save_atom_entry, save_variants, h] using this

theorem save_residue_nums (sel : Sel) (mode : Mode) (cid : String)
    (hm : mode ≠ .keep) (c : Int) (r : Residue) :
    ∃ k, atomNums (save_residue sel mode cid c r).1 = rangeI c k ∧
      (save_residue sel mode cid c r).2.1 = c + k := by
  rcases h : sel.accept_residue r with ⟨ok, r1⟩
  cases ok
  · exact ⟨0, by simp [save_residue, h, atomNums, rangeI], by simp [save_residue, h]⟩
  · obtain ⟨k, h1, h2⟩ := save_list_nums _ (save_atom_entry_nums sel mode
      ⟨r1.id.1, r1.id.2.1, r1.id.2.2, r1.resname, r1.segid, cid⟩ hm) c r1.atoms
    rcases he : save_list (save_atom_entry sel mode
      ⟨r1.id.1, r1.id.2.1, r1.id.2.2, r1.resname, r1.segid, cid⟩) c r1.atoms
      with ⟨recs, c1, atoms1, w⟩
    rw [he] at h1 h2
    exact ⟨k, by simpa [save_residue, h, save_atom_entries, he] using h1,
      by simpa [save_residue, h, save_atom_entries, he] using h2⟩

theorem save_residue_pred (sel : Sel) (mode : Mode) (cid : String) (c : Int)
    (r : Residue) :
    ∀ rec ∈ (save_residue sel mode cid c r).1, isAtomRec rec = true := by
  rcases h : sel.accept_residue r with ⟨ok, r1⟩
  cases ok
  · simp [save_residue, h]
  · have := save_list_pred _ _ (save_atom_entry_pred sel mode
      ⟨r1.id.1, r1.id.2.1, r1.id.2.2, r1.resname, r1.segid, cid⟩) c r1.atoms
    rcases he : save_list (save_atom_entry sel mode
      ⟨r1.id.1, r1.id.2.1, r1.id.2.2, r1.resname, r1.segid, cid⟩) c r1.atoms
      with ⟨recs, c1, atoms1, w⟩
    rw [he] at this
    simpa [save_residue, h, save_atom_entries, he] using this

theorem save_residue_wiff (sel : Sel) (mode : Mode) (cid : String) (c : Int)
    (r : Residue) :
    (save_residue sel mode cid c r).2.2.2 = true ↔
      atomNums (save_residue sel mode cid c r).1 ≠ [] := by
  rcases h : sel.accept_residue r with ⟨ok, r1⟩
  cases ok
  · simp [save_residue, h, atomNums]
  · have := save_list_wiff _ (save_atom_entry_wiff sel mode
      ⟨r1.id.1, r1.id.2.1, r1.id.2.2, r1.resname, r1.segid, cid⟩) c r1.atoms
    rcases he : save_list (save_atom_entry sel mode
      ⟨r1.id.1, r1.id.2.1, r1.id.2.2, r1.resname, r1.segid, cid⟩) c r1.atoms
      with ⟨recs, c1, atoms1, w⟩
    rw [he] at this
    simpa [save_residue, h, save_atom_entries, he] using this
theorem save_res_variant_step_nums (sel : Sel) (mode : Mode) (cid : String)
    (hm : mode ≠ .keep) (c : Int) (p : String × Residue) :
    ∃ k, atomNums (save_res_variant_step sel mode cid c p).1 = rangeI c k ∧
      (save_res_variant_step sel mode cid c p).2.1 = c + k := by
  obtain ⟨k, h1, h2⟩ := save_residue_nums sel mode cid hm c p.2
  rcases h : save_residue sel mode cid c p.2 with ⟨r1, c1, res1, w1⟩
  rw [h] at h1 h2
  exact ⟨k, by simpa [save_res_variant_step, h] using h1,
    by simpa [save_res_variant_step, h] using h2⟩

theorem save_res_variant_step_pred (sel : Sel) (mode : Mode) (cid : String) (c : Int)
    (p : String × Residue) :
    ∀ rec ∈ (save_res_variant_step sel mode cid c p).1, isAtomRec rec = true := by
  have := save_residue_pred sel mode cid c p.2
  rcases h : save_residue sel mode cid c p.2 with ⟨r1, c1, res1, w1⟩
  rw [h] at this
  simpa [save_res_variant_step, h] using this

theorem save_res_variant_step_wiff (sel : Sel) (mode : Mode) (cid : String) (c : Int)
    (p : String × Residue) :
    (save_res_variant_step sel mode cid c p).2.2.2 = true ↔
      atomNums (save_res_variant_step sel mode cid c p).1 ≠ [] := by
  have := save_residue_wiff sel mode cid c p.2
  rcases h : save_residue sel mode cid c p.2 with ⟨r1, c1, res1, w1⟩
  rw [h] at this
  simpa [save_res_variant_step, h] using this

theorem save_res_entry_nums (sel : Sel) (mode : Mode) (cid : String)
    (hm : mode ≠ .keep) (c : Int) (e : ResidueEntry) :
    ∃ k, atomNums (save_res_entry sel mode cid c e).1 = rangeI c k ∧
      (save_res_entry sel mode cid c e).2.1 = c + k := by
  cases e with
  | resE r =>
    obtain ⟨k, h1, h2⟩ := save_residue_nums sel mode cid hm c r
    rcases h : save_residue sel mode cid c r with ⟨r1, c1, res1, w1⟩
    rw [h] at h1 h2
    exact ⟨k, by simpa [save_res_entry, h] using h1,
      by simpa [save_res_entry, h] using h2⟩
  | disResE d =>
    obtain ⟨k, h1, h2⟩ := save_list_nums _ (save_res_variant_step_nums sel mode cid hm)
      c d.variants
    rcases h : save_list (save_res_variant_step sel mode cid) c d.variants
      with ⟨r1, c1, vs, w1⟩
    rw [h] at h1 h2
    exact ⟨k, by simpa [save_res_entry, save_res_variants, h] using h1,
      by simpa [save_res_entry, save_res_variants, h] using h2⟩

theorem save_res_entry_pred (sel : Sel) (mode : Mode) (cid : String) (c : Int)
    (e : ResidueEntry) :
    ∀ rec ∈ (save_res_entry sel mode cid c e).1, isAtomRec rec = true := by
  cases e with
  | resE r =>
    have := save_residue_pred sel mode cid c r
    rcases h : save_residue sel mode cid c r with ⟨r1, c1, res1, w1⟩
    rw [h] at this
    simpa [save_res_entry, h] using this
  | disResE d =>
    have := save_list_pred _ _ (save_res_variant_step_pred sel mode cid) c d.variants
    rcases h : save_list (save_res_variant_step sel mode cid) c d.variants
      with ⟨r1, c1, vs, w1⟩
    rw [h] at this
    simpa [save_res_entry, save_res_variants, h] using this

theorem save_res_entry_wiff (sel : Sel) (mode : Mode) (cid : String) (c : Int)
    (e : ResidueEntry) :
    (save_res_entry sel mode cid c e).2.2.2 = true ↔
      atomNums (save_res_entry sel mode cid c e).1 ≠ [] := by
  cases e with
  | resE r =>
    have := save_residue_wiff sel mode cid c r
    rcases h : save_residue sel mode cid c r with ⟨r1, c1, res1, w1⟩
    rw [h] at this
    simpa [save_res_entry, h] using this
  | disResE d =>
    have := save_list_wiff _ (save_res_variant_step_wiff sel mode cid) c d.variants
    rcases h : save_list (save_res_variant_step sel mode cid) c d.variants
      with ⟨r1, c1, vs, w1⟩
    rw [h] at this
    simpa [save_res_entry, save_res_variants, h] using this

theorem save_res_entry_step_nums (sel : Sel) (mode : Mode) (cid : String)
    (hm : mode ≠ .keep) (c : Int) (p : ResId × ResidueEntry) :
    ∃ k, atomNums (save_res_entry_step sel mode cid c p).1 = rangeI c k ∧
      (save_res_entry_step sel mode cid c p).2.1 = c + k := by
  obtain ⟨k, h1, h2⟩ := save_res_entry_nums sel mode cid hm c p.2
  rcases h : save_res_entry sel mode cid c p.2 with ⟨r1, c1, e1, w1⟩
  rw [h] at h1 h2
  exact ⟨k, by simpa [save_res_entry_step, h] using h1,
    by simpa [save_res_entry_step, h] using h2⟩

theorem save_res_entry_step_pred (sel : Sel) (mode : Mode) (cid : String) (c : Int)
    (p : ResId × ResidueEntry) :
    ∀ rec ∈ (save_res_entry_step sel mode cid c p).1, isAtomRec rec = true := by
  have := save_res_entry_pred sel mode cid c p.2
  rcases h : save_res_entry sel mode cid c p.2 with ⟨r1, c1, e1, w1⟩
  rw [h] at this
  simpa [save_res_entry_step, h] using this

theorem save_res_entry_step_wiff (sel : Sel) (mode : Mode) (cid : String) (c : Int)
    (p : ResId × ResidueEntry) :
    (save_res_entry_step sel mode cid c p).2.2.2 = true ↔
      atomNums (save_res_entry_step sel mode cid c p).1 ≠ [] := by
  have := save_res_entry_wiff sel mode cid c p.2
  rcases h : save_res_entry sel mode cid c p.2 with ⟨r1, c1, e1, w1⟩
  rw [h] at this
  simpa [save_res_entry_step, h] using this
theorem atomNums_ter_opt (b : Bool) :
    atomNums (if b then [Rec.ter] else []) = [] := by
  cases b <;> simp [atomNums]

theorem save_chain_nums_by_chain (sel : Sel) (c : Int) (ch : Chain) :
    ∃ k, atomNums (save_chain sel .by_chain c ch).1 = rangeI 1 k := by
  by_cases hacc : sel.accept_chain ch
  · obtain ⟨k, h1, _⟩ := save_list_nums _
      (save_res_entry_step_nums sel .by_chain ch.id (by decide)) 1 ch.residues
    rcases h : save_list (save_res_entry_step sel .by_chain ch.id) 1 ch.residues
      with ⟨recs, c1, entries, w⟩
    rw [h] at h1
    refine ⟨k, ?_⟩
    simp [save_chain, hacc, save_res_entries, h, atomNums_append, atomNums_ter_opt]
    simpa using h1
  · exact ⟨0, by simp [save_chain, hacc, atomNums, rangeI]⟩

theorem save_chain_nums_by_model (sel : Sel) (c : Int) (ch : Chain) :
    ∃ k, atomNums (save_chain sel .by_model c ch).1 = rangeI c k ∧
      (save_chain sel .by_model c ch).2.1 = c + k := by
  by_cases hacc : sel.accept_chain ch
  · obtain ⟨k, h1, h2⟩ := save_list_nums _
      (save_res_entry_step_nums sel .by_model ch.id (by decide)) c ch.residues
    rcases h : save_list (save_res_entry_step sel .by_model ch.id) c ch.residues
      with ⟨recs, c1, entries, w⟩
    rw [h] at h1 h2
    have h1' : atomNums recs = rangeI c k := h1
    have h2' : c1 = c + k := h2
    refine ⟨k, ?_, ?_⟩
    · simp [save_chain, hacc, save_res_entries, h, atomNums_append, atomNums_ter_opt, h1']
    · simp [save_chain, hacc, save_res_entries, h, h2']
  · exact ⟨0, by simp [save_chain, hacc, atomNums, rangeI], by simp [save_chain, hacc]⟩

theorem save_chain_pred (sel : Sel) (mode : Mode) (c : Int) (ch : Chain) :
    ∀ rec ∈ (save_chain sel mode c ch).1, isAtomRec rec = true ∨ rec = .ter := by
  by_cases hacc : sel.accept_chain ch
  · have hp := save_list_pred _ _ (save_res_entry_step_pred sel mode ch.id)
      (if mode = .by_chain then 1 else c) ch.residues
    rcases h : save_list (save_res_entry_step sel mode ch.id)
      (if mode = .by_chain then 1 else c) ch.residues with ⟨recs, c1, entries, w⟩
    rw [h] at hp
    intro rec hrec
    simp only [save_chain, hacc, if_true, save_res_entries, h] at hrec
    rcases List.mem_append.mp hrec with hl | hl
    · exact Or.inl (hp rec hl)
    · cases w <;> simp at hl
      exact Or.inr hl
  · simp [save_chain, hacc]

theorem save_chain_wiff (sel : Sel) (mode : Mode) (c : Int) (ch : Chain) :
    (save_chain sel mode c ch).2.2.2 = true ↔
      atomNums (save_chain sel mode c ch).1 ≠ [] := by
  by_cases hacc : sel.accept_chain ch
  · have hw := save_list_wiff _ (save_res_entry_step_wiff sel mode ch.id)
      (if mode = .by_chain then 1 else c) ch.residues
    rcases h : save_list (save_res_entry_step sel mode ch.id)
      (if mode = .by_chain then 1 else c) ch.residues with ⟨recs, c1, entries, w⟩
    rw [h] at hw
    have hw' : w = true ↔ atomNums recs ≠ [] := hw
    cases hwv : w with
    | true =>
      have hne := hw'.mp hwv
      simp only [save_chain, hacc, save_res_entries, h, hwv, reduceIte]
      refine iff_of_true trivial ?_
      rw [atomNums_append]
      simpa [atomNums] using hne
    | false =>
      have hnil : atomNums recs = [] := by
        by_contra hc
        exact absurd (hw'.mpr hc) (by simp [hwv])
      simp only [save_chain, hacc, save_res_entries, h, hwv, Bool.false_eq_true,
        reduceIte, List.append_nil]
      refine iff_of_false (by simp) ?_
      simp [hnil]
  · simp [save_chain, hacc, atomNums]

theorem save_chain_ter (sel : Sel) (mode : Mode) (c : Int) (ch : Chain) :
    (Rec.ter ∈ (save_chain sel mode c ch).1 ↔
      atomNums (save_chain sel mode c ch).1 ≠ []) ∧
    (atomNums (save_chain sel mode c ch).1 ≠ [] →
      (save_chain sel mode c ch).1.getLast? = some .ter) := by
  by_cases hacc : sel.accept_chain ch
  · have hp := save_list_pred _ _ (save_res_entry_step_pred sel mode ch.id)
      (if mode = .by_chain then 1 else c) ch.residues
    have hw := save_list_wiff _ (save_res_entry_step_wiff sel mode ch.id)
      (if mode = .by_chain then 1 else c) ch.residues
    rcases h : save_list (save_res_entry_step sel mode ch.id)
      (if mode = .by_chain then 1 else c) ch.residues with ⟨recs, c1, entries, w⟩
    rw [h] at hp hw
    have hw' : w = true ↔ atomNums recs ≠ [] := hw
    have hter : Rec.ter ∉ recs := by
      intro hmem
      have := hp _ hmem
      simp [isAtomRec] at this
    cases hwv : w with
    | true =>
      have hne : atomNums recs ≠ [] := hw'.mp hwv
      constructor
      · simp only [save_chain, hacc, save_res_entries, h, hwv, reduceIte]
        refine iff_of_true (List.mem_append.mpr (Or.inr (by simp))) ?_
        rw [atomNums_append]
        simpa [atomNums] using hne
      · intro _
        simp only [save_chain, hacc, save_res_entries, h, hwv, reduceIte]
        exact List.getLast?_concat _
    | false =>
      have hnil : atomNums recs = [] := by
        by_contra hc
        exact absurd (hw'.mpr hc) (by simp [hwv])
      constructor
      · simp only [save_chain, hacc, save_res_entries, h, hwv, Bool.false_eq_true,
          reduceIte, List.append_nil]
        exact iff_of_false hter (by simp [hnil])
      · intro hc
        exfalso
        apply hc
        simp only [save_chain, hacc, save_res_entries, h, hwv, Bool.false_eq_true,
          reduceIte, List.append_nil]
        exact hnil
  · constructor
    · simp [save_chain, hacc, atomNums]
    · simp [save_chain, hacc, atomNums]
theorem save_chain_step_nums_by_model (sel : Sel) (c : Int) (p : String × Chain) :
    ∃ k, atomNums (save_chain_step sel .by_model c p).1 = rangeI c k ∧
      (save_chain_step sel .by_model c p).2.1 = c + k := by
  obtain ⟨k, h1, h2⟩ := save_chain_nums_by_model sel c p.2
  rcases h : save_chain sel .by_model c p.2 with ⟨r1, c1, ch1, w1⟩
  rw [h] at h1 h2
  exact ⟨k, by simpa [save_chain_step, h] using h1,
    by simpa [save_chain_step, h] using h2⟩

theorem save_chain_step_pred (sel : Sel) (mode : Mode) (c : Int) (p : String × Chain) :
    ∀ rec ∈ (save_chain_step sel mode c p).1, isAtomRec rec = true ∨ rec = .ter := by
  have := save_chain_pred sel mode c p.2
  rcases h : save_chain sel mode c p.2 with ⟨r1, c1, ch1, w1⟩
  rw [h] at this
  simpa [save_chain_step, h] using this

theorem save_chain_step_wiff (sel : Sel) (mode : Mode) (c : Int) (p : String × Chain) :
    (save_chain_step sel mode c p).2.2.2 = true ↔
      atomNums (save_chain_step sel mode c p).1 ≠ [] := by
  have := save_chain_wiff sel mode c p.2
  rcases h : save_chain sel mode c p.2 with ⟨r1, c1, ch1, w1⟩
  rw [h] at this
  simpa [save_chain_step, h] using this

theorem atomNums_model_opt (p : Prop) [Decidable p] (sn : Option Int) :
    atomNums (if p then [Rec.modelRec sn] else []) = [] := by
  split <;> simp [atomNums]

theorem atomNums_endmdl_opt (p : Prop) [Decidable p] :
    atomNums (if p then [Rec.endmdl] else []) = [] := by
  split <;> simp [atomNums]

theorem save_model_nums_by_model (sel : Sel) (flag : Bool) (c : Int) (m : PModel) :
    ∃ k, atomNums (save_model sel .by_model flag c m).1 = rangeI 1 k := by
  by_cases hacc : sel.accept_model m
  · obtain ⟨k, h1, _⟩ := save_list_nums _ (save_chain_step_nums_by_model sel) 1 m.chains
    rcases h : save_list (save_chain_step sel .by_model) 1 m.chains
      with ⟨body, c1, chains1, w⟩
    rw [h] at h1
    have h1' : atomNums body = rangeI 1 k := h1
    refine ⟨k, ?_⟩
    simp [save_model, hacc, save_chains, h, atomNums_append, atomNums_model_opt,
      atomNums_endmdl_opt, h1']
  · exact ⟨0, by simp [save_model, hacc, atomNums, rangeI]⟩

theorem save_model_records (sel : Sel) (mode : Mode) (c : Int) (m : PModel)
    (hacc : sel.accept_model m = true) :
    (save_model sel mode true c m).1.head? = some (.modelRec m.serial_num) ∧
    (Rec.endmdl ∈ (save_model sel mode true c m).1 ↔
      atomNums (save_model sel mode true c m).1 ≠ []) := by
  have hp := save_list_pred _ _ (save_chain_step_pred sel mode)
    (if mode = .by_model then 1 else c) m.chains
  have hw := save_list_wiff _ (save_chain_step_wiff sel mode)
    (if mode = .by_model then 1 else c) m.chains
  rcases h : save_list (save_chain_step sel mode)
    (if mode = .by_model then 1 else c) m.chains with ⟨body, c1, chains1, w⟩
  rw [h] at hp hw
  have hw' : w = true ↔ atomNums body ≠ [] := hw
  have hend : Rec.endmdl ∉ body := by
    intro hmem
    rcases hp _ hmem with hl | hl
    · simp [isAtomRec] at hl
    · simp at hl
  constructor
  · simp [save_model, hacc, save_chains, h]
  · cases hwv : w with
    | true =>
      have hne := hw'.mp hwv
      have hrecs : (if (true && w : Bool) then [Rec.endmdl] else []) = [Rec.endmdl] := by
        simp [hwv]
      simp only [save_model, hacc, save_chains, h, hrecs, reduceIte]
      refine iff_of_true ?_ ?_
      · simp
      · simp only [atomNums_append]
        simpa [atomNums] using hne
    | false =>
      have hnil : atomNums body = [] := by
        by_contra hc
        exact absurd (hw'.mpr hc) (by simp [hwv])
      have hrecs : (if (true && w : Bool) then [Rec.endmdl] else []) = [] := by
        simp [hwv]
      simp only [save_model, hacc, save_chains, h, hrecs, List.append_nil, reduceIte]
      refine iff_of_false ?_ ?_
      · intro hmem
        rcases List.mem_append.mp hmem with hl | hl
        · simp only [List.mem_singleton] at hl
          exact absurd hl (by simp)
        · exact hend hl
      · intro hc
        apply hc
        rw [atomNums_append, hnil, List.append_nil]
        simp [atomNums]
theorem atomPairs_opt_nil (p : Prop) [Decidable p] (r : Rec) (hr : isAtomRec r = false) :
    atomPairs (if p then [r] else []) = [] := by
  split
  · cases r <;> simp [atomPairs, isAtomRec] at hr ⊢
  · simp [atomPairs]

theorem save_atom_keep (sel : Sel) (ctx : ResCtx) (c : Int) (a : Atom) :
    ∀ p ∈ atomPairs (save_atom sel .keep ctx c a).1, p.1 = p.2.serial_number := by
  rcases h : sel.accept_atom a with ⟨ok, a'⟩
  cases ok <;> simp [save_atom, h, atomPairs]

theorem save_variant_step_keep (sel : Sel) (ctx : ResCtx) (c : Int) (p : String × Atom) :
    ∀ q ∈ atomPairs (save_variant_step sel .keep ctx c p).1, q.1 = q.2.serial_number := by
  have := save_atom_keep sel ctx c p.2
  rcases h : save_atom sel .keep ctx c p.2 with ⟨r1, c1, a1, w1⟩
  rw [h] at this
  simpa [save_variant_step, h] using this

theorem save_atom_entry_keep (sel : Sel) (ctx : ResCtx) (c : Int) (e : AtomEntry) :
    ∀ q ∈ atomPairs (save_atom_entry sel .keep ctx c e).1, q.1 = q.2.serial_number := by
  cases e with
  | atomE a =>
    have := save_atom_keep sel ctx c a
    rcases h : save_atom sel .keep ctx c a with ⟨r1, c1, a1, w1⟩
    rw [h] at this
    simpa [save_atom_entry, h] using this
  | disAtomE d =>
    have := save_list_keep _ (save_variant_step_keep sel ctx) c d.variants
    rcases h : save_list (save_variant_step sel .keep ctx) c d.variants
      with ⟨r1, c1, vs, w1⟩
    rw [h] at this
    simpa [save_atom_entry, save_variants, h] using this

theorem save_residue_keep (sel : Sel) (cid : String) (c : Int) (r : Residue) :
    ∀ q ∈ atomPairs (save_residue sel .keep cid c r).1, q.1 = q.2.serial_number := by
  rcases h : sel.accept_residue r with ⟨ok, r1⟩
  cases ok
  · simp [save_residue, h, atomPairs]
  · have := save_list_keep _ (save_atom_entry_keep sel
      ⟨r1.id.1, r1.id.2.1, r1.id.2.2, r1.resname, r1.segid, cid⟩) c r1.atoms
    rcases he : save_list (save_atom_entry sel .keep
      ⟨r1.id.1, r1.id.2.1, r1.id.2.2, r1.resname, r1.segid, cid⟩) c r1.atoms
      with ⟨recs, c1, atoms1, w⟩
    rw [he] at this
    simpa [save_residue, h, save_atom_entries, he] using this

theorem save_res_variant_step_keep (sel : Sel) (cid : String) (c : Int)
    (p : String × Residue) :
    ∀ q ∈ atomPairs (save_res_variant_step sel .keep cid c p).1,
      q.1 = q.2.serial_number := by
  have := save_residue_keep sel cid c p.2
  rcases h : save_residue sel .keep cid c p.2 with ⟨r1, c1, res1, w1⟩
  rw [h] at this
  simpa [save_res_variant_step, h] using this

theorem save_res_entry_keep (sel : Sel) (cid : String) (c : Int) (e : ResidueEntry) :
    ∀ q ∈ atomPairs (save_res_entry sel .keep cid c e).1, q.1 = q.2.serial_number := by
  cases e with
  | resE r =>
    have := save_residue_keep sel cid c r
    rcases h : save_residue sel .keep cid c r with ⟨r1, c1, res1, w1⟩
    rw [h] at this
    simpa [save_res_entry, h] using this
  | disResE d =>
    have := save_list_keep _ (save_res_variant_step_keep sel cid) c d.variants
    rcases h : save_list (save_res_variant_step sel .keep cid) c d.variants
      with ⟨r1, c1, vs, w1⟩
    rw [h] at this
    simpa [save_res_entry, save_res_variants, h] using this

theorem save_res_entry_step_keep (sel : Sel) (cid : String) (c : Int)
    (p : ResId × ResidueEntry) :
    ∀ q ∈ atomPairs (save_res_entry_step sel .keep cid c p).1,
      q.1 = q.2.serial_number := by
  have := save_res_entry_keep sel cid c p.2
  rcases h : save_res_entry sel .keep cid c p.2 with ⟨r1, c1, e1, w1⟩
  rw [h] at this
  simpa [save_res_entry_step, h] using this

theorem save_chain_keep (sel : Sel) (c : Int) (ch : Chain) :
    ∀ q ∈ atomPairs (save_chain sel .keep c ch).1, q.1 = q.2.serial_number := by
  by_cases hacc : sel.accept_chain ch
  · have := save_list_keep _ (save_res_entry_step_keep sel ch.id) c ch.residues
    rcases h : save_list (save_res_entry_step sel .keep ch.id) c ch.residues
      with ⟨recs, c1, entries, w⟩
    rw [h] at this
    have hif : (if Mode.keep = Mode.by_chain then (1 : Int) else c) = c := rfl
    intro q hq
    simp only [save_chain, hacc, reduceIte, save_res_entries, hif, h, atomPairs_append,
      atomPairs_opt_nil _ Rec.ter rfl, List.append_nil] at hq
    exact this q hq
  · simp [save_chain, hacc, atomPairs]

theorem save_chain_step_keep (sel : Sel) (c : Int) (p : String × Chain) :
    ∀ q ∈ atomPairs (save_chain_step sel .keep c p).1, q.1 = q.2.serial_number := by
  have := save_chain_keep sel c p.2
  rcases h : save_chain sel .keep c p.2 with ⟨r1, c1, ch1, w1⟩
  rw [h] at this
  simpa [save_chain_step, h] using this

theorem save_model_keep (sel : Sel) (flag : Bool) (c : Int) (m : PModel) :
    ∀ q ∈ atomPairs (save_model sel .keep flag c m).1, q.1 = q.2.serial_number := by
  by_cases hacc : sel.accept_model m
  · have := save_list_keep _ (save_chain_step_keep sel) c m.chains
    rcases h : save_list (save_chain_step sel .keep) c m.chains
      with ⟨body, c1, chains1, w⟩
    rw [h] at this
    have hif : (if Mode.keep = Mode.by_model then (1 : Int) else c) = c := rfl
    intro q hq
    simp only [save_model, hacc, reduceIte, save_chains, hif, h, atomPairs_append,
      atomPairs_opt_nil _ (Rec.modelRec m.serial_num) rfl,
      atomPairs_opt_nil _ Rec.endmdl rfl,
      List.append_nil, List.nil_append] at hq
    exact this q hq
  · simp [save_model, hacc, atomPairs]

/-! ## Claim C4 -/

/-- C4: exactly one atom-numbering mode is active per call: under `by_chain`
the serial numbers written for any chain restart at 1 and increase by one
per written atom, whatever counter value is threaded in; under `by_model`
they run 1..N for the whole model, reset per model; under `keep` every
written record carries its atom's own stored serial number exactly. -/
theorem C4_numbering_modes :
    (∀ (sel : Sel) (c : Int) (ch : Chain),
      ∃ k, atomNums (save_chain sel .by_chain c ch).1 = rangeI 1 k) ∧
    (∀ (sel : Sel) (flag : Bool) (c : Int) (m : PModel),
      ∃ k, atomNums (save_model sel .by_model flag c m).1 = rangeI 1 k) ∧
    (∀ (sel : Sel) (we uf : Bool) (s : Structure),
      (atomPairs (save_structure sel .keep we uf s).1).map Prod.fst
        = (atomPairs (save_structure sel .keep we uf s).1).map
            (fun q => q.2.serial_number)) := by
  refine ⟨save_chain_nums_by_chain, save_model_nums_by_model, ?_⟩
  intro sel we uf s
  have hall : ∀ q ∈ atomPairs (save_structure sel .keep we uf s).1,
      q.1 = q.2.serial_number := by
    have := save_list_keep _ (save_model_keep sel
      (decide (s.models.length > 1) || uf)) 0 s.models
    rcases h : save_list (save_model sel .keep (decide (s.models.length > 1) || uf))
      0 s.models with ⟨recs, c1, models1, w⟩
    rw [h] at this
    intro q hq
    simp only [save_structure, save_models, h, atomPairs_append,
      atomPairs_opt_nil _ Rec.endRec rfl, List.append_nil] at hq
    exact this q hq
  exact List.map_congr_left hall
/-! ## Claim C5 -/

/-- C5: for every chain processed, a TER record is emitted (after the
chain's atom records) iff at least one atom was written for that chain; and
when multi-model output is active every accepted model's records are headed
by a MODEL record carrying the model's serial number, while ENDMDL is
emitted iff at least one atom was written for that model. -/
theorem C5_ter_and_model_records :
    (∀ (sel : Sel) (mode : Mode) (c : Int) (ch : Chain),
      (Rec.ter ∈ (save_chain sel mode c ch).1 ↔
        atomNums (save_chain sel mode c ch).1 ≠ []) ∧
      (atomNums (save_chain sel mode c ch).1 ≠ [] →
        (save_chain sel mode c ch).1.getLast? = some .ter)) ∧
    (∀ (sel : Sel) (mode : Mode) (c : Int) (m : PModel),
      sel.accept_model m = true →
      (save_model sel mode true c m).1.head? = some (.modelRec m.serial_num) ∧
      (Rec.endmdl ∈ (save_model sel mode true c m).1 ↔
        atomNums (save_model sel mode true c m).1 ≠ [])) :=
  ⟨save_chain_ter, save_model_records⟩

/-- C5 witness: a concrete one-atom chain emits its TER and a concrete
accepted model is wrapped in MODEL/ENDMDL records. -/
theorem C5_ter_and_model_records_witness :
    (Rec.ter ∈ (save_chain selectAll .by_chain 1
        ⟨"A", [((" ", 1, " "), .resE ⟨(" ", 1, " "), "GLY", " ", 0,
          [.atomE ⟨"N", " N  ", 0, 0, 0, 0, .val 100, " ", 11, none, false⟩]⟩)]⟩).1 ↔
      atomNums (save_chain selectAll .by_chain 1
        ⟨"A", [((" ", 1, " "), .resE ⟨(" ", 1, " "), "GLY", " ", 0,
          [.atomE ⟨"N", " N  ", 0, 0, 0, 0, .val 100, " ", 11, none, false⟩]⟩)]⟩).1 ≠ []) ∧
    (save_model selectAll .by_model true 0
        ⟨0, some 1, [("A", ⟨"A", [((" ", 1, " "), .resE ⟨(" ", 1, " "), "GLY", " ", 0,
          [.atomE ⟨"N", " N  ", 0, 0, 0, 0, .val 100, " ", 11, none, false⟩]⟩)]⟩)]⟩).1.head?
      = some (.modelRec (some 1)) :=
  ⟨(C5_ter_and_model_records.1 selectAll .by_chain 1
      ⟨"A", [((" ", 1, " "), .resE ⟨(" ", 1, " "), "GLY", " ", 0,
        [.atomE ⟨"N", " N  ", 0, 0, 0, 0, .val 100, " ", 11, none, false⟩]⟩)]⟩).1,
   (C5_ter_and_model_records.2 selectAll .by_model 0
      ⟨0, some 1, [("A", ⟨"A", [((" ", 1, " "), .resE ⟨(" ", 1, " "), "GLY", " ", 0,
        [.atomE ⟨"N", " N  ", 0, 0, 0, 0, .val 100, " ", 11, none, false⟩]⟩)]⟩)]⟩ rfl).1⟩
theorem nd_accept_atom_fix (a : Atom) :
    nd_accept_atom (nd_accept_atom a).2 = nd_accept_atom a := by
  by_cases hf : a.disordered_flag
  · by_cases hA : a.altloc = "A"
    · simp [nd_accept_atom, hf, hA]
    · simp [nd_accept_atom, hf, hA]
  · simp [nd_accept_atom, hf]

theorem nd_accept_atom_reject (a : Atom) (h : (nd_accept_atom a).1 = false) :
    (nd_accept_atom a).2 = a := by
  by_cases hf : a.disordered_flag
  · by_cases hA : a.altloc = "A"
    · simp [nd_accept_atom, hf, hA] at h
    · simp [nd_accept_atom, hf, hA]
  · simp [nd_accept_atom, hf] at h

theorem nd_accept_atom_entry_fix (e : AtomEntry) :
    nd_accept_atom_entry (nd_accept_atom_entry e).2 = nd_accept_atom_entry e := by
  cases e with
  | atomE a => simp [nd_accept_atom_entry, nd_accept_atom_fix]
  | disAtomE d =>
    rcases hsel : lookupKey d.variants d.selected with _ | a
    · simp [nd_accept_atom_entry, hsel]
    · simp only [nd_accept_atom_entry, hsel]
      have hsel2 : lookupKey (setKey d.variants d.selected (nd_accept_atom a).2)
          d.selected = some (nd_accept_atom a).2 := lookupKey_setKey_self _ _ _
      simp only [hsel2, nd_accept_atom_fix, setKey_setKey]

theorem nd_accept_atom_entry_reject (e : AtomEntry)
    (h : (nd_accept_atom_entry e).1 = false) : (nd_accept_atom_entry e).2 = e := by
  cases e with
  | atomE a =>
    simp only [nd_accept_atom_entry] at h ⊢
    rw [nd_accept_atom_reject a h]
  | disAtomE d =>
    rcases hsel : lookupKey d.variants d.selected with _ | a
    · simp [nd_accept_atom_entry, hsel]
    · simp only [nd_accept_atom_entry, hsel] at h ⊢
      rw [nd_accept_atom_reject a h, setKey_lookup_eq _ _ _ hsel]

theorem nd_any_reject : ∀ (l : List AtomEntry), (nd_any l).1 = false → (nd_any l).2 = l
  | [], _ => rfl
  | e :: es, h => by
    rcases he : nd_accept_atom_entry e with ⟨b, e1⟩
    cases b with
    | true => simp [nd_any, he] at h
    | false =>
      have he1 : e1 = e := by
        have := nd_accept_atom_entry_reject e (by simp [he])
        rw [he] at this
        exact this
      rcases hes : nd_any es with ⟨b2, es2⟩
      cases b2 with
      | true => simp [nd_any, he, hes] at h
      | false =>
        have hes2 : es2 = es := by
          have := nd_any_reject es (by simp [hes])
          rw [hes] at this
          exact this
        simp [nd_any, he, hes, he1, hes2]

theorem save_atom_fix (sel : Sel) (mode : Mode) (ctx : ResCtx)
    (hstable : ∀ a, sel.accept_atom (sel.accept_atom a).2 = sel.accept_atom a)
    (c : Int) (a : Atom) :
    save_atom sel mode ctx c (save_atom sel mode ctx c a).2.2.1
      = save_atom sel mode ctx c a := by
  rcases h : sel.accept_atom a with ⟨ok, a'⟩
  have hs := hstable a
  rw [h] at hs
  have hs' : sel.accept_atom a' = (ok, a') := hs
  cases ok <;> simp [save_atom, h, hs']
theorem save_variant_step_fix (sel : Sel) (mode : Mode) (ctx : ResCtx)
    (hstable : ∀ a, sel.accept_atom (sel.accept_atom a).2 = sel.accept_atom a)
    (c : Int) (p : String × Atom) :
    save_variant_step sel mode ctx c (save_variant_step sel mode ctx c p).2.2.1
      = save_variant_step sel mode ctx c p := by
  rcases h : save_atom sel mode ctx c p.2 with ⟨r1, c1, a1, w1⟩
  have hf := save_atom_fix sel mode ctx hstable c p.2
  rw [h] at hf
  have hf' : save_atom sel mode ctx c a1 = (r1, c1, a1, w1) := hf
  simp [save_variant_step, h, hf']

theorem save_atom_entry_fix (sel : Sel) (mode : Mode) (ctx : ResCtx)
    (hstable : ∀ a, sel.accept_atom (sel.accept_atom a).2 = sel.accept_atom a)
    (c : Int) (e : AtomEntry) :
    save_atom_entry sel mode ctx c (save_atom_entry sel mode ctx c e).2.2.1
      = save_atom_entry sel mode ctx c e := by
  cases e with
  | atomE a =>
    rcases h : save_atom sel mode ctx c a with ⟨r1, c1, a1, w1⟩
    have hf := save_atom_fix sel mode ctx hstable c a
    rw [h] at hf
    have hf' : save_atom sel mode ctx c a1 = (r1, c1, a1, w1) := hf
    simp [save_atom_entry, h, hf']
  | disAtomE d =>
    rcases h : save_list (save_variant_step sel mode ctx) c d.variants
      with ⟨r1, c1, vs, w1⟩
    have hf := save_list_fix _ (save_variant_step_fix sel mode ctx hstable) c d.variants
    rw [h] at hf
    have hf' : save_list (save_variant_step sel mode ctx) c vs = (r1, c1, vs, w1) := hf
    simp [save_atom_entry, save_variants, h, hf']

theorem save_residue_fix (sel : Sel) (mode : Mode) (cid : String)
    (hstable : ∀ a, sel.accept_atom (sel.accept_atom a).2 = sel.accept_atom a)
    (hres_acc : ∀ r, (sel.accept_residue r).1 = true →
      ∀ ats, sel.accept_residue { (sel.accept_residue r).2 with atoms := ats }
        = (true, { (sel.accept_residue r).2 with atoms := ats }))
    (hres_rej : ∀ r, (sel.accept_residue r).1 = false → (sel.accept_residue r).2 = r)
    (c : Int) (r : Residue) :
    save_residue sel mode cid c (save_residue sel mode cid c r).2.2.1
      = save_residue sel mode cid c r := by
  rcases h : sel.accept_residue r with ⟨ok, r1⟩
  cases ok with
  | false =>
    have hr1 : r1 = r := by
      have := hres_rej r (by rw [h])
      rw [h] at this
      exact this
    subst hr1
    simp [save_residue, h]
  | true =>
    rcases he : save_list (save_atom_entry sel mode
        ⟨r1.id.1, r1.id.2.1, r1.id.2.2, r1.resname, r1.segid, cid⟩) c r1.atoms
      with ⟨recs, c1, atoms1, w⟩
    have hacc2 := hres_acc r (by rw [h]) atoms1
    rw [h] at hacc2
    have hf := save_list_fix _ (save_atom_entry_fix sel mode
      ⟨r1.id.1, r1.id.2.1, r1.id.2.2, r1.resname, r1.segid, cid⟩ hstable) c r1.atoms
    rw [he] at hf
    have hf' : save_list (save_atom_entry sel mode
        ⟨r1.id.1, r1.id.2.1, r1.id.2.2, r1.resname, r1.segid, cid⟩) c atoms1
      = (recs, c1, atoms1, w) := hf
    simp only [save_residue, h, save_atom_entries, he, reduceIte, hacc2]
    simp [hf']
theorem save_res_variant_step_fix (sel : Sel) (mode : Mode) (cid : String)
    (hstable : ∀ a, sel.accept_atom (sel.accept_atom a).2 = sel.accept_atom a)
    (hres_acc : ∀ r, (sel.accept_residue r).1 = true →
      ∀ ats, sel.accept_residue { (sel.accept_residue r).2 with atoms := ats }
        = (true, { (sel.accept_residue r).2 with atoms := ats }))
    (hres_rej : ∀ r, (sel.accept_residue r).1 = false → (sel.accept_residue r).2 = r)
    (c : Int) (p : String × Residue) :
    save_res_variant_step sel mode cid c (save_res_variant_step sel mode cid c p).2.2.1
      = save_res_variant_step sel mode cid c p := by
  rcases h : save_residue sel mode cid c p.2 with ⟨r1, c1, res1, w1⟩
  have hf := save_residue_fix sel mode cid hstable hres_acc hres_rej c p.2
  rw [h] at hf
  have hf' : save_residue sel mode cid c res1 = (r1, c1, res1, w1) := hf
  simp [save_res_variant_step, h, hf']

theorem save_res_entry_fix (sel : Sel) (mode : Mode) (cid : String)
    (hstable : ∀ a, sel.accept_atom (sel.accept_atom a).2 = sel.accept_atom a)
    (hres_acc : ∀ r, (sel.accept_residue r).1 = true →
      ∀ ats, sel.accept_residue { (sel.accept_residue r).2 with atoms := ats }
        = (true, { (sel.accept_residue r).2 with atoms := ats }))
    (hres_rej : ∀ r, (sel.accept_residue r).1 = false → (sel.accept_residue r).2 = r)
    (c : Int) (e : ResidueEntry) :
    save_res_entry sel mode cid c (save_res_entry sel mode cid c e).2.2.1
      = save_res_entry sel mode cid c e := by
  cases e with
  | resE r =>
    rcases h : save_residue sel mode cid c r with ⟨r1, c1, res1, w1⟩
    have hf := save_residue_fix sel mode cid hstable hres_acc hres_rej c r
    rw [h] at hf
    have hf' : save_residue sel mode cid c res1 = (r1, c1, res1, w1) := hf
    simp [save_res_entry, h, hf']
  | disResE d =>
    rcases h : save_list (save_res_variant_step sel mode cid) c d.variants
      with ⟨r1, c1, vs, w1⟩
    have hf := save_list_fix _
      (save_res_variant_step_fix sel mode cid hstable hres_acc hres_rej) c d.variants
    rw [h] at hf
    have hf' : save_list (save_res_variant_step sel mode cid) c vs
      = (r1, c1, vs, w1) := hf
    simp [save_res_entry, save_res_variants, h, hf']

theorem save_res_entry_step_fix (sel : Sel) (mode : Mode) (cid : String)
    (hstable : ∀ a, sel.accept_atom (sel.accept_atom a).2 = sel.accept_atom a)
    (hres_acc : ∀ r, (sel.accept_residue r).1 = true →
      ∀ ats, sel.accept_residue { (sel.accept_residue r).2 with atoms := ats }
        = (true, { (sel.accept_residue r).2 with atoms := ats }))
    (hres_rej : ∀ r, (sel.accept_residue r).1 = false → (sel.accept_residue r).2 = r)
    (c : Int) (p : ResId × ResidueEntry) :
    save_res_entry_step sel mode cid c (save_res_entry_step sel mode cid c p).2.2.1
      = save_res_entry_step sel mode cid c p := by
  rcases h : save_res_entry sel mode cid c p.2 with ⟨r1, c1, e1, w1⟩
  have hf := save_res_entry_fix sel mode cid hstable hres_acc hres_rej c p.2
  rw [h] at hf
  have hf' : save_res_entry sel mode cid c e1 = (r1, c1, e1, w1) := hf
  simp [save_res_entry_step, h, hf']

theorem save_chain_fix (sel : Sel) (mode : Mode)
    (hstable : ∀ a, sel.accept_atom (sel.accept_atom a).2 = sel.accept_atom a)
    (hres_acc : ∀ r, (sel.accept_residue r).1 = true →
      ∀ ats, sel.accept_residue { (sel.accept_residue r).2 with atoms := ats }
        = (true, { (sel.accept_residue r).2 with atoms := ats }))
    (hres_rej : ∀ r, (sel.accept_residue r).1 = false → (sel.accept_residue r).2 = r)
    (hchain : ∀ ch, sel.accept_chain ch = true)
    (c : Int) (ch : Chain) :
    save_chain sel mode c (save_chain sel mode c ch).2.2.1
      = save_chain sel mode c ch := by
  rcases h : save_list (save_res_entry_step sel mode ch.id)
    (if mode = .by_chain then 1 else c) ch.residues with ⟨recs, c1, entries, w⟩
  have hf := save_list_fix _
    (save_res_entry_step_fix sel mode ch.id hstable hres_acc hres_rej)
    (if mode = .by_chain then 1 else c) ch.residues
  rw [h] at hf
  have hf' : save_list (save_res_entry_step sel mode ch.id)
      (if mode = .by_chain then 1 else c) entries = (recs, c1, entries, w) := hf
  simp [save_chain, hchain ch, hchain { ch with residues := entries },
    save_res_entries, h, hf']

theorem save_chain_step_fix (sel : Sel) (mode : Mode)
    (hstable : ∀ a, sel.accept_atom (sel.accept_atom a).2 = sel.accept_atom a)
    (hres_acc : ∀ r, (sel.accept_residue r).1 = true →
      ∀ ats, sel.accept_residue { (sel.accept_residue r).2 with atoms := ats }
        = (true, { (sel.accept_residue r).2 with atoms := ats }))
    (hres_rej : ∀ r, (sel.accept_residue r).1 = false → (sel.accept_residue r).2 = r)
    (hchain : ∀ ch, sel.accept_chain ch = true)
    (c : Int) (p : String × Chain) :
    save_chain_step sel mode c (save_chain_step sel mode c p).2.2.1
      = save_chain_step sel mode c p := by
  rcases h : save_chain sel mode c p.2 with ⟨r1, c1, ch1, w1⟩
  have hf := save_chain_fix sel mode hstable hres_acc hres_rej hchain c p.2
  rw [h] at hf
  have hf' : save_chain sel mode c ch1 = (r1, c1, ch1, w1) := hf
  simp [save_chain_step, h, hf']

theorem save_model_fix (sel : Sel) (mode : Mode) (flag : Bool)
    (hstable : ∀ a, sel.accept_atom (sel.accept_atom a).2 = sel.accept_atom a)
    (hres_acc : ∀ r, (sel.accept_residue r).1 = true →
      ∀ ats, sel.accept_residue { (sel.accept_residue r).2 with atoms := ats }
        = (true, { (sel.accept_residue r).2 with atoms := ats }))
    (hres_rej : ∀ r, (sel.accept_residue r).1 = false → (sel.accept_residue r).2 = r)
    (hchain : ∀ ch, sel.accept_chain ch = true)
    (hmodel : ∀ m, sel.accept_model m = true)
    (c : Int) (m : PModel) :
    save_model sel mode flag c (save_model sel mode flag c m).2.2.1
      = save_model sel mode flag c m := by
  rcases h : save_list (save_chain_step sel mode)
    (if mode = .by_model then 1 else c) m.chains with ⟨body, c1, chains1, w⟩
  have hf := save_list_fix _
    (save_chain_step_fix sel mode hstable hres_acc hres_rej hchain)
    (if mode = .by_model then 1 else c) m.chains
  rw [h] at hf
  have hf' : save_list (save_chain_step sel mode)
      (if mode = .by_model then 1 else c) chains1 = (body, c1, chains1, w) := hf
  simp [save_model, hmodel m, hmodel { m with chains := chains1 },
    save_chains, h, hf']

theorem save_structure_fix (sel : Sel) (mode : Mode) (we uf : Bool)
    (hstable : ∀ a, sel.accept_atom (sel.accept_atom a).2 = sel.accept_atom a)
    (hres_acc : ∀ r, (sel.accept_residue r).1 = true →
      ∀ ats, sel.accept_residue { (sel.accept_residue r).2 with atoms := ats }
        = (true, { (sel.accept_residue r).2 with atoms := ats }))
    (hres_rej : ∀ r, (sel.accept_residue r).1 = false → (sel.accept_residue r).2 = r)
    (hchain : ∀ ch, sel.accept_chain ch = true)
    (hmodel : ∀ m, sel.accept_model m = true)
    (s : Structure) :
    save_structure sel mode we uf (save_structure sel mode we uf s).2
      = save_structure sel mode we uf s := by
  rcases h : save_list (save_model sel mode (decide (s.models.length > 1) || uf))
    0 s.models with ⟨recs, c1, models1, w⟩
  have hlen := save_list_length (save_model sel mode
    (decide (s.models.length > 1) || uf)) 0 s.models
  rw [h] at hlen
  have hlen' : models1.length = s.models.length := hlen
  have hf := save_list_fix _
    (save_model_fix sel mode (decide (s.models.length > 1) || uf)
      hstable hres_acc hres_rej hchain hmodel) 0 s.models
  rw [h] at hf
  have hf' : save_list (save_model sel mode (decide (s.models.length > 1) || uf))
      0 models1 = (recs, c1, models1, w) := hf
  simp [save_structure, save_models, h, hf', hlen']
theorem nd_res_acc (r : Residue) (h : (nd_accept_residue r).1 = true) (ats : List AtomEntry) :
    nd_accept_residue { (nd_accept_residue r).2 with atoms := ats }
      = (true, { (nd_accept_residue r).2 with atoms := ats }) := by
  by_cases hd : r.disordered = 0
  · simp [nd_accept_residue, hd]
  · rcases hany : nd_any r.atoms with ⟨b, ats1⟩
    cases b with
    | false => simp [nd_accept_residue, hd, hany] at h
    | true => simp [nd_accept_residue, hd, hany]

theorem nd_res_rej (r : Residue) (h : (nd_accept_residue r).1 = false) :
    (nd_accept_residue r).2 = r := by
  by_cases hd : r.disordered = 0
  · simp [nd_accept_residue, hd] at h
  · rcases hany : nd_any r.atoms with ⟨b, ats1⟩
    cases b with
    | true => simp [nd_accept_residue, hd, hany] at h
    | false =>
      have : ats1 = r.atoms := by
        have := nd_any_reject r.atoms (by simp [hany])
        rw [hany] at this
        exact this
      simp [nd_accept_residue, hd, hany, this]

/-! ## Claim C8 -/

/-- C8: serializing the same Structure twice in succession with the same
numbering mode and the same selection policy (pass-through or
disorder-collapsing) produces identical record sequences — indeed the first
call's result, mutations included, is a fixed point of the serializer, even
though the collapsing policy mutates disorder flags and altloc codes in
place during the first call. -/
theorem C8_save_idempotent (mode : Mode) (we uf : Bool) (s : Structure) :
    save_structure notDisordered mode we uf
        (save_structure notDisordered mode we uf s).2
      = save_structure notDisordered mode we uf s ∧
    save_structure selectAll mode we uf
        (save_structure selectAll mode we uf s).2
      = save_structure selectAll mode we uf s := by
  constructor
  · exact save_structure_fix notDisordered mode we uf
      nd_accept_atom_fix nd_res_acc nd_res_rej
      (fun _ => rfl) (fun _ => rfl) s
  · exact save_structure_fix selectAll mode we uf
      (fun _ => rfl) (fun r _ ats => rfl) (fun r h => by simp [selectAll] at h)
      (fun _ => rfl) (fun _ => rfl) s
/-- C3 (amended): under the collapsing policy, a disordered atom position
with variants at altlocs "A" and "B" whose currently selected variant is the
"A" one (as when it has the highest occupancy) yields exactly one written
atom record — the "A" variant with its altloc blanked and disorder flag
cleared — and every other variant is rejected; when the selected variant is
not "A" the residue-level acceptance sees the selected variant and rejects,
so the claim's unconditional "exactly one record" does not hold (see the
counterexample).  A position holding only a "B" variant yields zero written
atoms and, as the residue's only atom, the containing residue is rejected
outright (no TER). -/
theorem C3_collapsing_policy (nm rn sg cid sid : String) (rid : ResId) (lo lo2 : Option Int)
    (a b : Atom)
    (ha : a.altloc = "A") (haf : a.disordered_flag = true)
    (hb : b.altloc = "B") (hbf : b.disordered_flag = true) :
    atomPairs (save_structure notDisordered .by_chain true false
        ⟨sid, [⟨0, none, [(cid, ⟨cid, [(rid, .resE ⟨rid, rn, sg, 1,
          [.disAtomE ⟨nm, [("A", a), ("B", b)], "A", lo⟩]⟩)]⟩)]⟩]⟩).1
      = [(1, { a with disordered_flag := false, altloc := " " })] ∧
    atomNums (save_structure notDisordered .by_chain true false
        ⟨sid, [⟨0, none, [(cid, ⟨cid, [(rid, .resE ⟨rid, rn, sg, 1,
          [.disAtomE ⟨nm, [("B", b)], "B", lo2⟩]⟩)]⟩)]⟩]⟩).1 = [] ∧
    Rec.ter ∉ (save_structure notDisordered .by_chain true false
        ⟨sid, [⟨0, none, [(cid, ⟨cid, [(rid, .resE ⟨rid, rn, sg, 1,
          [.disAtomE ⟨nm, [("B", b)], "B", lo2⟩]⟩)]⟩)]⟩]⟩).1 := by
  have ha' : nd_accept_atom a = (true, { a with disordered_flag := false, altloc := " " }) := by
    simp [nd_accept_atom, haf, ha]
  have ha'' : nd_accept_atom { a with disordered_flag := false, altloc := " " }
      = (true, { a with disordered_flag := false, altloc := " " }) := by
    simp [nd_accept_atom]
  have hb' : nd_accept_atom b = (false, b) := by
    simp [nd_accept_atom, hbf, hb]
  refine ⟨?_, ?_, ?_⟩
  · simp [save_structure, save_models, save_list, save_model, save_chains,
      save_chain_step, save_chain, save_res_entries, save_res_entry_step,
      save_res_entry, save_residue, save_atom_entries, save_atom_entry,
      save_variants, save_variant_step, save_atom, nd_accept_residue, nd_any,
      nd_accept_atom_entry, notDisordered, lookupKey, setKey, ha', ha'', hb',
      atomPairs]
  · simp [save_structure, save_models, save_list, save_model, save_chains,
      save_chain_step, save_chain, save_res_entries, save_res_entry_step,
      save_res_entry, save_residue, save_atom_entries, save_atom_entry,
      save_variants, save_variant_step, save_atom, nd_accept_residue, nd_any,
      nd_accept_atom_entry, notDisordered, lookupKey, setKey, hb',
      atomNums]
  · simp [save_structure, save_models, save_list, save_model, save_chains,
      save_chain_step, save_chain, save_res_entries, save_res_entry_step,
      save_res_entry, save_residue, save_atom_entries, save_atom_entry,
      save_variants, save_variant_step, save_atom, nd_accept_residue, nd_any,
      nd_accept_atom_entry, notDisordered, lookupKey, setKey, hb']
/-- C3 counterexample: the same disordered position with variants at "A"
(occupancy 0.30) and "B" (occupancy 0.70) — so that construction selects the
"B" variant, as the first conjunct shows — produces zero written atom
records, refuting the claim that exactly one record (the "A" variant) is
always written. -/
theorem C3_collapsing_policy_counterexample :
    (((DisorderedAtom.mk "CA" [] "" none).disordered_add
        ⟨"CA", " CA ", 0, 0, 0, 0, .val 30, "A", 1, none, false⟩).disordered_add
        ⟨"CA", " CA ", 0, 0, 0, 0, .val 70, "B", 2, none, false⟩
      = ⟨"CA", [("A", ⟨"CA", " CA ", 0, 0, 0, 0, .val 30, "A", 1, none, true⟩),
                ("B", ⟨"CA", " CA ", 0, 0, 0, 0, .val 70, "B", 2, none, true⟩)],
          "B", some 70⟩) ∧
    atomPairs (save_structure notDisordered .by_chain true false
      ⟨"s", [⟨0, none, [("A", ⟨"A", [((" ", 10, " "),
        .resE ⟨(" ", 10, " "), "ALA", " ", 1,
          [.disAtomE ⟨"CA",
            [("A", ⟨"CA", " CA ", 0, 0, 0, 0, .val 30, "A", 1, none, true⟩),
             ("B", ⟨"CA", " CA ", 0, 0, 0, 0, .val 70, "B", 2, none, true⟩)],
            "B", some 70⟩]⟩)]⟩)]⟩]⟩).1 = [] := by
  constructor
  · rfl
  · rfl

/-- C3 witness: with the "A" variant selected (highest occupancy) exactly
the blanked, flag-cleared "A" atom is written; an only-"B" position yields
no records. -/
theorem C3_collapsing_policy_witness :
    atomPairs (save_structure notDisordered .by_chain true false
        ⟨"s", [⟨0, none, [("A", ⟨"A", [((" ", 10, " "),
          .resE ⟨(" ", 10, " "), "ALA", " ", 1,
            [.disAtomE ⟨"CA",
              [("A", ⟨"CA", " CA ", 0, 0, 0, 0, .val 70, "A", 1, none, true⟩),
               ("B", ⟨"CA", " CA ", 0, 0, 0, 0, .val 30, "B", 2, none, true⟩)],
              "A", some 70⟩]⟩)]⟩)]⟩]⟩).1
      = [(1, ⟨"CA", " CA ", 0, 0, 0, 0, .val 70, " ", 1, none, false⟩)] ∧
    atomNums (save_structure notDisordered .by_chain true false
        ⟨"s", [⟨0, none, [("A", ⟨"A", [((" ", 10, " "),
          .resE ⟨(" ", 10, " "), "ALA", " ", 1,
            [.disAtomE ⟨"CA",
              [("B", ⟨"CA", " CA ", 0, 0, 0, 0, .val 30, "B", 2, none, true⟩)],
              "B", some 30⟩]⟩)]⟩)]⟩]⟩).1 = [] :=
  ⟨(C3_collapsing_policy "CA" "ALA" " " "A" "s" (" ", 10, " ") (some 70) (some 30)
      ⟨"CA", " CA ", 0, 0, 0, 0, .val 70, "A", 1, none, true⟩
      ⟨"CA", " CA ", 0, 0, 0, 0, .val 30, "B", 2, none, true⟩
      rfl rfl rfl rfl).1,
   (C3_collapsing_policy "CA" "ALA" " " "A" "s" (" ", 10, " ") (some 70) (some 30)
      ⟨"CA", " CA ", 0, 0, 0, 0, .val 70, "A", 1, none, true⟩
      ⟨"CA", " CA ", 0, 0, 0, 0, .val 30, "B", 2, none, true⟩
      rfl rfl rfl rfl).2.1⟩

end Kmbio
